import Mathlib

/-!
Shallow embedding, in Lean 4, of the core numeric and geometric routines of a
Monte Carlo path tracer written in Rust, together with proofs of the
properties its specification states about them.  The development has three
layers:

* an exact model `Fq` of IEEE double values (finite rationals together with
  the two infinities and NaN), used for the axis-aligned bounding-box
  component, where behaviour under division by zero and under comparisons
  involving NaN is exactly the point of the stated properties;
* a real-number model of the geometric kernels (sphere, quad, interaction,
  translation, constant medium, probability densities, the recursive radiance
  estimator), with interval endpoints in `EReal` so that the half-open
  interval `(0.001, +inf)` and the universe interval are representable;
* a fuel-indexed model of the randomized BVH construction.

Finite arithmetic in `Fq` is exact rational arithmetic; rounding is not
modelled.  Randomness is modelled by passing the drawn values explicitly.
-/

namespace RT

/-- Model of an IEEE double value: NaN, the two infinities, or a finite
rational. -/
inductive Fq where
  | nan : Fq
  | ninf : Fq
  | fin (q : ℚ) : Fq
  | pinf : Fq
deriving DecidableEq, Repr

namespace Fq

/-- IEEE subtraction on model doubles. -/
def sub : Fq → Fq → Fq
  | nan, _ => nan
  | _, nan => nan
  | pinf, pinf => nan
  | pinf, _ => pinf
  | ninf, ninf => nan
  | ninf, _ => ninf
  | fin _, pinf => ninf
  | fin _, ninf => pinf
  | fin a, fin b => fin (a - b)

/-- IEEE addition on model doubles. -/
def add : Fq → Fq → Fq
  | nan, _ => nan
  | _, nan => nan
  | pinf, ninf => nan
  | ninf, pinf => nan
  | pinf, _ => pinf
  | _, pinf => pinf
  | ninf, _ => ninf
  | _, ninf => ninf
  | fin a, fin b => fin (a + b)

/-- IEEE multiplication on model doubles; zero times an infinity is NaN. -/
def mul : Fq → Fq → Fq
  | nan, _ => nan
  | _, nan => nan
  | pinf, pinf => pinf
  | pinf, ninf => ninf
  | ninf, pinf => ninf
  | ninf, ninf => pinf
  | pinf, fin b => if b = 0 then nan else if 0 < b then pinf else ninf
  | fin a, pinf => if a = 0 then nan else if 0 < a then pinf else ninf
  | ninf, fin b => if b = 0 then nan else if 0 < b then ninf else pinf
  | fin a, ninf => if a = 0 then nan else if 0 < a then ninf else pinf
  | fin a, fin b => fin (a * b)

/-- IEEE strict comparison; any comparison with NaN is false. -/
def lt : Fq → Fq → Bool
  | nan, _ => false
  | _, nan => false
  | ninf, ninf => false
  | ninf, _ => true
  | _, ninf => false
  | _, pinf => true
  | pinf, _ => false
  | fin a, fin b => decide (a < b)

/-- IEEE non-strict comparison; any comparison with NaN is false. -/
def le : Fq → Fq → Bool
  | nan, _ => false
  | _, nan => false
  | ninf, _ => true
  | _, ninf => false
  | _, pinf => true
  | pinf, _ => false
  | fin a, fin b => decide (a ≤ b)

/-- Minimum in the style of f64::min: a NaN argument is ignored. -/
def fmin (a b : Fq) : Fq :=
  match a, b with
  | nan, b => b
  | a, nan => a
  | a, b => if le a b then a else b

/-- Maximum in the style of f64::max: a NaN argument is ignored. -/
def fmax (a b : Fq) : Fq :=
  match a, b with
  | nan, b => b
  | a, nan => a
  | a, b => if le b a then a else b

end Fq

/-- Interval over model doubles, mirroring core/interval.rs. -/
structure IntervalF where
  min : Fq
  max : Fq
deriving DecidableEq, Repr

namespace IntervalF

/-- Interval::empty, the pair (+inf, -inf). -/
def empty : IntervalF := ⟨Fq.pinf, Fq.ninf⟩

/-- Interval::universe, the pair (-inf, +inf). -/
def univ : IntervalF := ⟨Fq.ninf, Fq.pinf⟩

/-- Interval::size, max - min. -/
def size (i : IntervalF) : Fq := i.max.sub i.min

/-- Interval::expand, padding by delta/2 on both sides. -/
def expand (i : IntervalF) (delta : ℚ) : IntervalF :=
  ⟨i.min.sub (Fq.fin (delta / 2)), i.max.add (Fq.fin (delta / 2))⟩

/-- Interval::merge, componentwise f64 min/max. -/
def merge (i j : IntervalF) : IntervalF := ⟨i.min.fmin j.min, i.max.fmax j.max⟩

/-- Closed membership of a rational parameter in a model-double interval,
written with the IEEE comparisons. -/
def memQ (i : IntervalF) (t : ℚ) : Prop :=
  Fq.le i.min (Fq.fin t) = true ∧ Fq.le (Fq.fin t) i.max = true

instance (i : IntervalF) (t : ℚ) : Decidable (i.memQ t) := by
  unfold memQ; infer_instance

end IntervalF

/-- Triple of exact rational coordinates, modelling the f64 vectors and points
that reach the bounding-box component. -/
structure Vec3q where
  x : ℚ
  y : ℚ
  z : ℚ
deriving DecidableEq, Repr

/-- Component access by axis index, as in the match of Aabb::hit. -/
def Vec3q.comp (v : Vec3q) (axis : Fin 3) : ℚ :=
  match axis with
  | 0 => v.x
  | 1 => v.y
  | 2 => v.z

/-- Ray restricted to the data the bounding-box test consumes (the shutter
time plays no part in Aabb::hit). -/
structure Rayq where
  orig : Vec3q
  dir : Vec3q
deriving DecidableEq, Repr

/-- Point of the ray at parameter t, per Ray::at. -/
def Rayq.at (r : Rayq) (t : ℚ) : Vec3q :=
  ⟨r.orig.x + t * r.dir.x, r.orig.y + t * r.dir.y, r.orig.z + t * r.dir.z⟩

/-- Axis-aligned bounding box over model doubles, mirroring core/aabb.rs. -/
structure Aabbq where
  x : IntervalF
  y : IntervalF
  z : IntervalF
deriving DecidableEq, Repr

namespace Aabbq

/-- The DELTA constant of Aabb::pad_to_minimums. -/
def DELTA : ℚ := 1 / 10000

/-- One axis of Aabb::pad_to_minimums. -/
def padIntervalToMinimum (i : IntervalF) : IntervalF :=
  if Fq.lt i.size (Fq.fin DELTA) then i.expand DELTA else i

/-- Aabb::pad_to_minimums. -/
def padToMinimums (b : Aabbq) : Aabbq :=
  ⟨padIntervalToMinimum b.x, padIntervalToMinimum b.y, padIntervalToMinimum b.z⟩

/-- Aabb::new: store the three intervals, then pad. -/
def new (x y z : IntervalF) : Aabbq := padToMinimums ⟨x, y, z⟩

/-- Aabb::new_point: order each pair of coordinates, then Aabb::new. -/
def newPoint (a b : Vec3q) : Aabbq :=
  new
    (if a.x ≤ b.x then ⟨Fq.fin a.x, Fq.fin b.x⟩ else ⟨Fq.fin b.x, Fq.fin a.x⟩)
    (if a.y ≤ b.y then ⟨Fq.fin a.y, Fq.fin b.y⟩ else ⟨Fq.fin b.y, Fq.fin a.y⟩)
    (if a.z ≤ b.z then ⟨Fq.fin a.z, Fq.fin b.z⟩ else ⟨Fq.fin b.z, Fq.fin a.z⟩)

/-- Aabb::empty (also Default::default): three empty intervals, not padded. -/
def emptyBox : Aabbq := ⟨IntervalF.empty, IntervalF.empty, IntervalF.empty⟩

/-- Aabb::axis_interval (the invalid-index arm is unreachable on Fin 3). -/
def axisInterval (b : Aabbq) (axis : Fin 3) : IntervalF :=
  match axis with
  | 0 => b.x
  | 1 => b.y
  | 2 => b.z

/-- Aabb::merge, componentwise interval merge. -/
def merge (a b : Aabbq) : Aabbq := ⟨a.x.merge b.x, a.y.merge b.y, a.z.merge b.z⟩

/-- The Add<Vec3> impl for Aabb: shift every endpoint, with no padding. -/
def addOffset (b : Aabbq) (o : Vec3q) : Aabbq :=
  ⟨⟨b.x.min.add (Fq.fin o.x), b.x.max.add (Fq.fin o.x)⟩,
   ⟨b.y.min.add (Fq.fin o.y), b.y.max.add (Fq.fin o.y)⟩,
   ⟨b.z.min.add (Fq.fin o.z), b.z.max.add (Fq.fin o.z)⟩⟩

end Aabbq

/-- Reciprocal of a direction component: the reciprocal of zero is +inf, as
for an IEEE +0 divisor. -/
def finv (d : ℚ) : Fq := if d = 0 then Fq.pinf else Fq.fin (1 / d)

/-- One iteration of the loop of Aabb::hit: compute the entry/exit parameters
of the axis slab, swap them when the reciprocal is negative, and tighten the
running interval.  A comparison against NaN is false, so a NaN parameter
leaves the running interval unchanged. -/
def slabAxis (ax : IntervalF) (o d : ℚ) (rt : IntervalF) : IntervalF :=
  let adinv := finv d
  let t0 := (ax.min.sub (Fq.fin o)).mul adinv
  let t1 := (ax.max.sub (Fq.fin o)).mul adinv
  let tmin := if Fq.lt adinv (Fq.fin 0) then t1 else t0
  let tmax := if Fq.lt adinv (Fq.fin 0) then t0 else t1
  ⟨if Fq.lt rt.min tmin then tmin else rt.min,
   if Fq.lt tmax rt.max then tmax else rt.max⟩

/-- Aabb::hit: the three-axis slab test with its early return, rejecting as
soon as the tightened interval satisfies max <= min. -/
def aabbHit (b : Aabbq) (r : Rayq) (rt : IntervalF) : Bool :=
  let rt0 := slabAxis b.x r.orig.x r.dir.x rt
  if Fq.le rt0.max rt0.min then false else
  let rt1 := slabAxis b.y r.orig.y r.dir.y rt0
  if Fq.le rt1.max rt1.min then false else
  let rt2 := slabAxis b.z r.orig.z r.dir.z rt1
  if Fq.le rt2.max rt2.min then false else true

/-- The ray point at parameter t lies, with closed containment, inside all
three axis slabs of the box. -/
def inSlabs (b : Aabbq) (r : Rayq) (t : ℚ) : Prop :=
  ∀ axis : Fin 3,
    Fq.le (b.axisInterval axis).min (Fq.fin ((r.at t).comp axis)) = true ∧
    Fq.le (Fq.fin ((r.at t).comp axis)) (b.axisInterval axis).max = true

instance (b : Aabbq) (r : Rayq) (t : ℚ) : Decidable (inSlabs b r t) := by
  unfold inSlabs; infer_instance

/-- The unit cube as a raw box, for concrete evaluations. -/
def unitCube : Aabbq :=
  ⟨⟨Fq.fin 0, Fq.fin 1⟩, ⟨Fq.fin 0, Fq.fin 1⟩, ⟨Fq.fin 0, Fq.fin 1⟩⟩

example :
    aabbHit unitCube ⟨⟨1/2, 1/2, -1⟩, ⟨0, 0, 1⟩⟩ ⟨Fq.fin 0, Fq.pinf⟩ = true := by
  with_unfolding_all decide

example :
    aabbHit unitCube ⟨⟨1/2, 1/2, -1⟩, ⟨0, 0, -1⟩⟩ ⟨Fq.fin 0, Fq.pinf⟩ = false := by
  with_unfolding_all decide

/-- Tightening a lower bound by a non-NaN candidate bounds a rational from
below by both the old bound and the candidate. -/
lemma le_updateMin (m v : Fq) (t : ℚ) (hv : v ≠ Fq.nan) :
    Fq.le (if Fq.lt m v then v else m) (Fq.fin t) = true ↔
      (Fq.le m (Fq.fin t) = true ∧ Fq.le v (Fq.fin t) = true) := by
  cases m <;> cases v <;>
    simp_all [Fq.le, Fq.lt] <;>
    split_ifs <;>
    simp_all <;>
    intro h <;>
    linarith

/-- Tightening an upper bound by a non-NaN candidate bounds a rational from
above by both the old bound and the candidate. -/
lemma le_updateMax (M v : Fq) (t : ℚ) (hv : v ≠ Fq.nan) :
    Fq.le (Fq.fin t) (if Fq.lt v M then v else M) = true ↔
      (Fq.le (Fq.fin t) M = true ∧ Fq.le (Fq.fin t) v = true) := by
  cases M <;> cases v <;>
    simp_all [Fq.le, Fq.lt] <;>
    split_ifs <;>
    simp_all <;>
    intro h <;>
    linarith

/-- Tightening the lower bound of the running interval by a non-NaN candidate
restricts closed membership by exactly the candidate bound. -/
lemma memQ_updateMin (m M v : Fq) (t : ℚ) (hv : v ≠ Fq.nan) :
    IntervalF.memQ ⟨if Fq.lt m v then v else m, M⟩ t ↔
      (IntervalF.memQ ⟨m, M⟩ t ∧ Fq.le v (Fq.fin t) = true) := by
  simp only [IntervalF.memQ, le_updateMin m v t hv]
  tauto

/-- Tightening the upper bound of the running interval by a non-NaN candidate
restricts closed membership by exactly the candidate bound. -/
lemma memQ_updateMax (m M v : Fq) (t : ℚ) (hv : v ≠ Fq.nan) :
    IntervalF.memQ ⟨m, if Fq.lt v M then v else M⟩ t ↔
      (IntervalF.memQ ⟨m, M⟩ t ∧ Fq.le (Fq.fin t) v = true) := by
  simp only [IntervalF.memQ, le_updateMax M v t hv]
  tauto

/-- A NaN entry parameter leaves the lower bound unchanged. -/
lemma updateMin_nan (m : Fq) : (if Fq.lt m Fq.nan then Fq.nan else m) = m := by
  cases m <;> rfl

/-- A NaN exit parameter leaves the upper bound unchanged. -/
lemma updateMax_nan (M : Fq) : (if Fq.lt Fq.nan M then Fq.nan else M) = M := by
  cases M <;> rfl

/-- A -inf entry parameter leaves the lower bound unchanged. -/
lemma updateMin_ninf (m : Fq) : (if Fq.lt m Fq.ninf then Fq.ninf else m) = m := by
  cases m <;> rfl

/-- A +inf exit parameter leaves the upper bound unchanged. -/
lemma updateMax_pinf (M : Fq) : (if Fq.lt Fq.pinf M then Fq.pinf else M) = M := by
  cases M <;> rfl

/-- Unfolded form of the slab-axis tightening. -/
lemma slabAxis_def (ax : IntervalF) (o d : ℚ) (rt : IntervalF) :
    slabAxis ax o d rt =
      ⟨if Fq.lt rt.min
            (if Fq.lt (finv d) (Fq.fin 0) then (ax.max.sub (Fq.fin o)).mul (finv d)
             else (ax.min.sub (Fq.fin o)).mul (finv d)) then
          (if Fq.lt (finv d) (Fq.fin 0) then (ax.max.sub (Fq.fin o)).mul (finv d)
           else (ax.min.sub (Fq.fin o)).mul (finv d))
        else rt.min,
       if Fq.lt
            (if Fq.lt (finv d) (Fq.fin 0) then (ax.min.sub (Fq.fin o)).mul (finv d)
             else (ax.max.sub (Fq.fin o)).mul (finv d)) rt.max then
          (if Fq.lt (finv d) (Fq.fin 0) then (ax.min.sub (Fq.fin o)).mul (finv d)
           else (ax.max.sub (Fq.fin o)).mul (finv d))
        else rt.max⟩ := rfl

/-- Raising the lower bound to +inf empties the interval. -/
lemma memQ_updateMin_pinf (m M : Fq) (t : ℚ) :
    IntervalF.memQ ⟨if Fq.lt m Fq.pinf then Fq.pinf else m, M⟩ t ↔ False := by
  cases m <;> simp [IntervalF.memQ, Fq.le, Fq.lt]

/-- Lowering the upper bound to -inf empties the interval. -/
lemma memQ_updateMax_ninf (m M : Fq) (t : ℚ) :
    IntervalF.memQ ⟨m, if Fq.lt Fq.ninf M then Fq.ninf else M⟩ t ↔ False := by
  cases M <;> simp [IntervalF.memQ, Fq.le, Fq.lt]

/-- Per-axis characterisation of the slab tightening for a slab with finite
bounds: a rational parameter survives the tightening exactly when it lay in
the running interval and its ray coordinate lies in the closed slab.  The
statement covers every direction component, including zero, where the
reciprocal is +inf and a boundary origin produces NaN parameters that the
comparisons skip. -/
lemma memQ_slabAxis (qmin qmax o d : ℚ) (rt : IntervalF) (t : ℚ) :
    (slabAxis ⟨Fq.fin qmin, Fq.fin qmax⟩ o d rt).memQ t ↔
      (rt.memQ t ∧ (qmin ≤ o + t * d ∧ o + t * d ≤ qmax)) := by
  rcases lt_trichotomy d 0 with hd | hd | hd
  · have hne : d ≠ 0 := ne_of_lt hd
    have hfinv : finv d = Fq.fin (1 / d) := by unfold finv; rw [if_neg hne]
    have hswap : Fq.lt (finv d) (Fq.fin 0) = true := by
      rw [hfinv]
      show decide ((1:ℚ) / d < 0) = true
      simp only [decide_eq_true_eq]
      exact one_div_neg.mpr hd
    rw [slabAxis_def, hswap]
    simp only [eq_self_iff_true, if_true, hfinv, Fq.sub, Fq.mul]
    rw [memQ_updateMin _ _ _ _ (by simp), memQ_updateMax _ _ _ _ (by simp)]
    simp only [Fq.le, decide_eq_true_eq, mul_one_div]
    rw [le_div_iff_of_neg hd, div_le_iff_of_neg hd]
    constructor
    · rintro ⟨⟨hm, h1⟩, h2⟩
      exact ⟨hm, by linarith, by linarith⟩
    · rintro ⟨hm, h1, h2⟩
      exact ⟨⟨hm, by linarith⟩, by linarith⟩
  · subst hd
    have hA : finv 0 = Fq.pinf := by unfold finv; rw [if_pos rfl]
    have hswap : Fq.lt (finv 0) (Fq.fin 0) = false := by rw [hA]; rfl
    rw [slabAxis_def, hswap]
    simp only [Bool.false_eq_true, if_false, hA, Fq.sub, Fq.mul, mul_zero, add_zero]
    rcases lt_trichotomy qmin o with h1 | h1 | h1 <;>
      rcases lt_trichotomy qmax o with h2 | h2 | h2
    · rw [if_neg (sub_ne_zero.mpr (ne_of_lt h1)), if_neg (by linarith : ¬ (0:ℚ) < qmin - o),
        if_neg (sub_ne_zero.mpr (ne_of_lt h2)), if_neg (by linarith : ¬ (0:ℚ) < qmax - o),
        updateMin_ninf, memQ_updateMax_ninf]
      simp only [false_iff]
      rintro ⟨-, -, h4⟩
      linarith
    · rw [if_neg (sub_ne_zero.mpr (ne_of_lt h1)), if_neg (by linarith : ¬ (0:ℚ) < qmin - o),
        if_pos (by linarith : qmax - o = 0), updateMin_ninf, updateMax_nan]
      constructor
      · intro hm
        exact ⟨hm, by linarith, by linarith⟩
      · exact fun hm => hm.1
    · rw [if_neg (sub_ne_zero.mpr (ne_of_lt h1)), if_neg (by linarith : ¬ (0:ℚ) < qmin - o),
        if_neg (sub_ne_zero.mpr (ne_of_gt h2)), if_pos (by linarith : (0:ℚ) < qmax - o),
        updateMin_ninf, updateMax_pinf]
      constructor
      · intro hm
        exact ⟨hm, by linarith, by linarith⟩
      · exact fun hm => hm.1
    · rw [if_pos (by linarith : qmin - o = 0),
        if_neg (sub_ne_zero.mpr (ne_of_lt h2)), if_neg (by linarith : ¬ (0:ℚ) < qmax - o),
        updateMin_nan, memQ_updateMax_ninf]
      simp only [false_iff]
      rintro ⟨-, -, h4⟩
      linarith
    · rw [if_pos (by linarith : qmin - o = 0), if_pos (by linarith : qmax - o = 0),
        updateMin_nan, updateMax_nan]
      constructor
      · intro hm
        exact ⟨hm, by linarith, by linarith⟩
      · exact fun hm => hm.1
    · rw [if_pos (by linarith : qmin - o = 0),
        if_neg (sub_ne_zero.mpr (ne_of_gt h2)), if_pos (by linarith : (0:ℚ) < qmax - o),
        updateMin_nan, updateMax_pinf]
      constructor
      · intro hm
        exact ⟨hm, by linarith, by linarith⟩
      · exact fun hm => hm.1
    · rw [if_neg (sub_ne_zero.mpr (ne_of_gt h1)), if_pos (by linarith : (0:ℚ) < qmin - o),
        if_neg (sub_ne_zero.mpr (ne_of_lt h2)), if_neg (by linarith : ¬ (0:ℚ) < qmax - o),
        memQ_updateMin_pinf]
      simp only [false_iff]
      rintro ⟨-, h3, -⟩
      linarith
    · rw [if_neg (sub_ne_zero.mpr (ne_of_gt h1)), if_pos (by linarith : (0:ℚ) < qmin - o),
        if_pos (by linarith : qmax - o = 0), memQ_updateMin_pinf]
      simp only [false_iff]
      rintro ⟨-, h3, -⟩
      linarith
    · rw [if_neg (sub_ne_zero.mpr (ne_of_gt h1)), if_pos (by linarith : (0:ℚ) < qmin - o),
        if_neg (sub_ne_zero.mpr (ne_of_gt h2)), if_pos (by linarith : (0:ℚ) < qmax - o),
        memQ_updateMin_pinf]
      simp only [false_iff]
      rintro ⟨-, h3, -⟩
      linarith
  · have hne : d ≠ 0 := ne_of_gt hd
    have hfinv : finv d = Fq.fin (1 / d) := by unfold finv; rw [if_neg hne]
    have hswap : Fq.lt (finv d) (Fq.fin 0) = false := by
      rw [hfinv]
      show decide ((1:ℚ) / d < 0) = false
      simp only [decide_eq_false_iff_not, not_lt]
      positivity
    rw [slabAxis_def, hswap]
    simp only [Bool.false_eq_true, if_false, hfinv, Fq.sub, Fq.mul]
    rw [memQ_updateMin _ _ _ _ (by simp), memQ_updateMax _ _ _ _ (by simp)]
    simp only [Fq.le, decide_eq_true_eq, mul_one_div]
    rw [le_div_iff₀ hd, div_le_iff₀ hd]
    constructor
    · rintro ⟨⟨hm, h1⟩, h2⟩
      exact ⟨hm, by linarith, by linarith⟩
    · rintro ⟨hm, h1, h2⟩
      exact ⟨⟨hm, by linarith⟩, by linarith⟩

/-- A true IEEE comparison has no NaN on its right. -/
lemma Fq.lt_right_ne_nan {a b : Fq} (h : Fq.lt a b = true) : b ≠ Fq.nan := by
  cases a <;> cases b <;> simp_all [Fq.lt]

/-- The slab tightening preserves a NaN-free lower bound. -/
lemma slabAxis_min_ne_nan (ax : IntervalF) (o d : ℚ) (rt : IntervalF)
    (h : rt.min ≠ Fq.nan) : (slabAxis ax o d rt).min ≠ Fq.nan := by
  rw [slabAxis_def]
  dsimp only
  split_ifs <;> try exact h
  all_goals (apply Fq.lt_right_ne_nan ; assumption)

/-- A true IEEE comparison has no NaN on its left. -/
lemma Fq.lt_left_ne_nan {a b : Fq} (h : Fq.lt a b = true) : a ≠ Fq.nan := by
  cases a <;> cases b <;> simp_all [Fq.lt]

/-- The slab tightening preserves a NaN-free upper bound. -/
lemma slabAxis_max_ne_nan (ax : IntervalF) (o d : ℚ) (rt : IntervalF)
    (h : rt.max ≠ Fq.nan) : (slabAxis ax o d rt).max ≠ Fq.nan := by
  rw [slabAxis_def]
  dsimp only
  split_ifs <;> try exact h
  all_goals (apply Fq.lt_left_ne_nan ; assumption)

/-- For a NaN-free interval, the rejection condition max <= min of Aabb::hit
fails exactly when the interval contains two distinct rational parameters. -/
lemma memQ_twoPoints (i : IntervalF) (h1 : i.min ≠ Fq.nan) (h2 : i.max ≠ Fq.nan) :
    Fq.le i.max i.min = false ↔ ∃ t u : ℚ, t < u ∧ i.memQ t ∧ i.memQ u := by
  obtain ⟨m, M⟩ := i
  simp only at h1 h2
  cases m with
  | nan => exact absurd rfl h1
  | ninf =>
    cases M with
    | nan => exact absurd rfl h2
    | ninf =>
      constructor
      · intro h
        simp [Fq.le] at h
      · rintro ⟨t, u, htu, ⟨-, ht⟩, -⟩
        simp [Fq.le] at ht
    | fin b =>
      constructor
      · intro _
        refine ⟨b - 1, b, by linarith, ⟨rfl, ?_⟩, ⟨rfl, ?_⟩⟩ <;>
          simp [Fq.le]
      · intro _
        rfl
    | pinf =>
      constructor
      · intro _
        exact ⟨0, 1, by norm_num, ⟨rfl, rfl⟩, ⟨rfl, rfl⟩⟩
      · intro _
        rfl
  | fin a =>
    cases M with
    | nan => exact absurd rfl h2
    | ninf =>
      constructor
      · intro h
        simp [Fq.le] at h
      · rintro ⟨t, u, htu, ⟨-, ht⟩, -⟩
        simp [Fq.le] at ht
    | fin b =>
      constructor
      · intro h
        have hab : ¬ b ≤ a := by simpa [Fq.le] using h
        refine ⟨a, b, by linarith, ?_, ?_⟩ <;>
          (simp [IntervalF.memQ, Fq.le]; linarith)
      · rintro ⟨t, u, htu, ht, hu⟩
        simp [IntervalF.memQ, Fq.le] at ht hu
        simp [Fq.le]
        linarith [ht.1, ht.2, hu.1, hu.2]
    | pinf =>
      constructor
      · intro _
        refine ⟨a, a + 1, by linarith, ⟨?_, rfl⟩, ⟨?_, rfl⟩⟩ <;>
          simp [Fq.le]
      · intro _
        rfl
  | pinf =>
    cases M with
    | nan => exact absurd rfl h2
    | ninf =>
      constructor
      · intro h
        simp [Fq.le] at h
      · rintro ⟨t, u, htu, ⟨ht, -⟩, -⟩
        simp [Fq.le] at ht
    | fin b =>
      constructor
      · intro h
        simp [Fq.le] at h
      · rintro ⟨t, u, htu, ⟨ht, -⟩, -⟩
        simp [Fq.le] at ht
    | pinf =>
      constructor
      · intro h
        simp [Fq.le] at h
      · rintro ⟨t, u, htu, ⟨ht, -⟩, -⟩
        simp [Fq.le] at ht

/-- Closed slab containment for a box with finite bounds, written as six
rational inequalities. -/
lemma inSlabs_fin (x0 x1 y0 y1 z0 z1 : ℚ) (r : Rayq) (t : ℚ) :
    inSlabs ⟨⟨Fq.fin x0, Fq.fin x1⟩, ⟨Fq.fin y0, Fq.fin y1⟩, ⟨Fq.fin z0, Fq.fin z1⟩⟩ r t ↔
      ((x0 ≤ r.orig.x + t * r.dir.x ∧ r.orig.x + t * r.dir.x ≤ x1) ∧
       (y0 ≤ r.orig.y + t * r.dir.y ∧ r.orig.y + t * r.dir.y ≤ y1) ∧
       (z0 ≤ r.orig.z + t * r.dir.z ∧ r.orig.z + t * r.dir.z ≤ z1)) := by
  constructor
  · intro h
    have h0 := h 0
    have h1 := h 1
    have h2 := h 2
    simp only [Aabbq.axisInterval, Vec3q.comp, Rayq.at, Fq.le, decide_eq_true_eq] at h0 h1 h2
    exact ⟨h0, h1, h2⟩
  · rintro ⟨hx, hy, hz⟩ axis
    fin_cases axis <;>
      simp only [Aabbq.axisInterval, Vec3q.comp, Rayq.at, Fq.le, decide_eq_true_eq] <;>
      tauto

/-- C2 (amended): for every AABB with finite bounds, every rational ray, and
every NaN-free parameter interval [t_min, t_max], the slab test Aabb::hit
returns true if and only if there exist TWO distinct parameters t < u in
[t_min, t_max] whose ray points lie, with closed containment, inside all
three axis slabs (equivalently, the admissible parameter set has positive
length).  A zero direction component, whose reciprocal is +inf, flows through
the tightening loop correctly.  The original one-parameter form of the claim
is refuted separately: a single boundary graze is rejected because the
rejection comparison uses <=. -/
theorem aabb_hit_iff_two_params
    (x0 x1 y0 y1 z0 z1 : ℚ) (r : Rayq) (rt : IntervalF)
    (hmin : rt.min ≠ Fq.nan) (hmax : rt.max ≠ Fq.nan) :
    aabbHit ⟨⟨Fq.fin x0, Fq.fin x1⟩, ⟨Fq.fin y0, Fq.fin y1⟩, ⟨Fq.fin z0, Fq.fin z1⟩⟩ r rt
        = true ↔
      ∃ t u : ℚ, t < u ∧
        (rt.memQ t ∧
          inSlabs ⟨⟨Fq.fin x0, Fq.fin x1⟩, ⟨Fq.fin y0, Fq.fin y1⟩, ⟨Fq.fin z0, Fq.fin z1⟩⟩ r t) ∧
        (rt.memQ u ∧
          inSlabs ⟨⟨Fq.fin x0, Fq.fin x1⟩, ⟨Fq.fin y0, Fq.fin y1⟩, ⟨Fq.fin z0, Fq.fin z1⟩⟩ r u) := by
  set s1 := slabAxis ⟨Fq.fin x0, Fq.fin x1⟩ r.orig.x r.dir.x rt with hs1
  set s2 := slabAxis ⟨Fq.fin y0, Fq.fin y1⟩ r.orig.y r.dir.y s1 with hs2
  set s3 := slabAxis ⟨Fq.fin z0, Fq.fin z1⟩ r.orig.z r.dir.z s2 with hs3
  have e : aabbHit ⟨⟨Fq.fin x0, Fq.fin x1⟩, ⟨Fq.fin y0, Fq.fin y1⟩, ⟨Fq.fin z0, Fq.fin z1⟩⟩ r rt
      = (if Fq.le s1.max s1.min then false
         else if Fq.le s2.max s2.min then false
         else if Fq.le s3.max s3.min then false
         else true) := rfl
  have mem1 : ∀ v : ℚ, s1.memQ v ↔
      rt.memQ v ∧ (x0 ≤ r.orig.x + v * r.dir.x ∧ r.orig.x + v * r.dir.x ≤ x1) := by
    intro v
    rw [hs1, memQ_slabAxis]
  have mem2 : ∀ v : ℚ, s2.memQ v ↔
      (rt.memQ v ∧ (x0 ≤ r.orig.x + v * r.dir.x ∧ r.orig.x + v * r.dir.x ≤ x1)) ∧
        (y0 ≤ r.orig.y + v * r.dir.y ∧ r.orig.y + v * r.dir.y ≤ y1) := by
    intro v
    rw [hs2, memQ_slabAxis, mem1]
  have mem3 : ∀ v : ℚ, s3.memQ v ↔
      ((rt.memQ v ∧ (x0 ≤ r.orig.x + v * r.dir.x ∧ r.orig.x + v * r.dir.x ≤ x1)) ∧
        (y0 ≤ r.orig.y + v * r.dir.y ∧ r.orig.y + v * r.dir.y ≤ y1)) ∧
        (z0 ≤ r.orig.z + v * r.dir.z ∧ r.orig.z + v * r.dir.z ≤ z1) := by
    intro v
    rw [hs3, memQ_slabAxis, mem2]
  have n1min : s1.min ≠ Fq.nan := by
    rw [hs1]; exact slabAxis_min_ne_nan _ _ _ _ hmin
  have n1max : s1.max ≠ Fq.nan := by
    rw [hs1]; exact slabAxis_max_ne_nan _ _ _ _ hmax
  have n2min : s2.min ≠ Fq.nan := by
    rw [hs2]; exact slabAxis_min_ne_nan _ _ _ _ n1min
  have n2max : s2.max ≠ Fq.nan := by
    rw [hs2]; exact slabAxis_max_ne_nan _ _ _ _ n1max
  have n3min : s3.min ≠ Fq.nan := by
    rw [hs3]; exact slabAxis_min_ne_nan _ _ _ _ n2min
  have n3max : s3.max ≠ Fq.nan := by
    rw [hs3]; exact slabAxis_max_ne_nan _ _ _ _ n2max
  constructor
  · intro hhit
    rw [e] at hhit
    split_ifs at hhit with c1 c2 c3 <;> try simp at hhit
    have c3f : Fq.le s3.max s3.min = false := by
      exact Bool.eq_false_iff.mpr c3
    obtain ⟨t, u, htu, ht, hu⟩ := (memQ_twoPoints s3 n3min n3max).mp c3f
    rw [mem3] at ht hu
    refine ⟨t, u, htu, ⟨ht.1.1.1, ?_⟩, ⟨hu.1.1.1, ?_⟩⟩ <;>
      rw [inSlabs_fin]
    · exact ⟨ht.1.1.2, ht.1.2, ht.2⟩
    · exact ⟨hu.1.1.2, hu.1.2, hu.2⟩
  · rintro ⟨t, u, htu, ⟨ht0, htS⟩, hu0, huS⟩
    rw [inSlabs_fin] at htS huS
    have ht3 : s3.memQ t := (mem3 t).mpr ⟨⟨⟨ht0, htS.1⟩, htS.2.1⟩, htS.2.2⟩
    have hu3 : s3.memQ u := (mem3 u).mpr ⟨⟨⟨hu0, huS.1⟩, huS.2.1⟩, huS.2.2⟩
    have ht2 : s2.memQ t := (mem2 t).mpr ⟨⟨ht0, htS.1⟩, htS.2.1⟩
    have hu2 : s2.memQ u := (mem2 u).mpr ⟨⟨hu0, huS.1⟩, huS.2.1⟩
    have ht1 : s1.memQ t := (mem1 t).mpr ⟨ht0, htS.1⟩
    have hu1 : s1.memQ u := (mem1 u).mpr ⟨hu0, huS.1⟩
    have c1 : Fq.le s1.max s1.min = false :=
      (memQ_twoPoints s1 n1min n1max).mpr ⟨t, u, htu, ht1, hu1⟩
    have c2 : Fq.le s2.max s2.min = false :=
      (memQ_twoPoints s2 n2min n2max).mpr ⟨t, u, htu, ht2, hu2⟩
    have c3 : Fq.le s3.max s3.min = false :=
      (memQ_twoPoints s3 n3min n3max).mpr ⟨t, u, htu, ht3, hu3⟩
    rw [e, c1, c2, c3]
    simp

/-- C2, counterexample to the claim as stated: the ray from (-1, 0, 1/2) with
direction (1, 1, 0) grazes the unit cube exactly at the single parameter
t = 1, whose point (0, 1, 1/2) lies (closed containment) inside all three
slabs and inside the interval (0.001, +inf), yet the slab test returns false,
because the tightened interval degenerates to a point and the rejection
comparison is max <= min. -/
theorem aabb_hit_claim_counterexample :
    aabbHit unitCube ⟨⟨-1, 0, 1/2⟩, ⟨1, 1, 0⟩⟩ ⟨Fq.fin (1/1000), Fq.pinf⟩ = false ∧
      (⟨Fq.fin (1/1000), Fq.pinf⟩ : IntervalF).memQ 1 ∧
      inSlabs unitCube ⟨⟨-1, 0, 1/2⟩, ⟨1, 1, 0⟩⟩ 1 := by
  refine ⟨?_, ?_, ?_⟩ <;> with_unfolding_all decide

/-- Witness: the amended C2 theorem applied to the unit cube and the ray from
(1/2, 1/2, -1) along +z on the interval (0.001, +inf). -/
theorem aabb_hit_iff_two_params_witness :
    aabbHit unitCube ⟨⟨1/2, 1/2, -1⟩, ⟨0, 0, 1⟩⟩ ⟨Fq.fin (1/1000), Fq.pinf⟩ = true :=
  (aabb_hit_iff_two_params 0 1 0 1 0 1 ⟨⟨1/2, 1/2, -1⟩, ⟨0, 0, 1⟩⟩
      ⟨Fq.fin (1/1000), Fq.pinf⟩ (by with_unfolding_all decide)
      (by with_unfolding_all decide)).mpr
    ⟨3/2, 8/5, by norm_num,
      ⟨by with_unfolding_all decide, by with_unfolding_all decide⟩,
      by with_unfolding_all decide, by with_unfolding_all decide⟩

/-- Every axis interval of the box has size at least DELTA. -/
def Aabbq.PaddedOK (b : Aabbq) : Prop :=
  ∀ axis : Fin 3, Fq.le (Fq.fin Aabbq.DELTA) ((b.axisInterval axis).size) = true

instance (b : Aabbq) : Decidable b.PaddedOK := by
  unfold Aabbq.PaddedOK; infer_instance

/-- Every axis interval of the box has finite rational endpoints. -/
def Aabbq.FiniteBounds (b : Aabbq) : Prop :=
  ∀ axis : Fin 3, ∃ m M : ℚ, b.axisInterval axis = ⟨Fq.fin m, Fq.fin M⟩

/-- Padding an ordered finite interval makes its size at least DELTA. -/
lemma padIntervalToMinimum_ok (m M : ℚ) (h : m ≤ M) :
    Fq.le (Fq.fin Aabbq.DELTA) (Aabbq.padIntervalToMinimum ⟨Fq.fin m, Fq.fin M⟩).size
      = true := by
  unfold Aabbq.padIntervalToMinimum
  simp only [IntervalF.size, IntervalF.expand, Fq.sub, Fq.add, Fq.lt, Fq.le,
    decide_eq_true_eq]
  split_ifs with h1
  · simp only [Fq.sub, Fq.le, decide_eq_true_eq]
    linarith
  · simp only [Fq.le, decide_eq_true_eq] at h1 ⊢
    linarith


/-- Axis projection of Aabb::new. -/
lemma Aabbq.new_axisInterval (x y z : IntervalF) (axis : Fin 3) :
    (Aabbq.new x y z).axisInterval axis =
      Aabbq.padIntervalToMinimum (Aabbq.axisInterval ⟨x, y, z⟩ axis) := by
  fin_cases axis <;> rfl

/-- Axis projection of Aabb::merge. -/
lemma Aabbq.merge_axisInterval (a b : Aabbq) (axis : Fin 3) :
    (a.merge b).axisInterval axis =
      (a.axisInterval axis).merge (b.axisInterval axis) := by
  fin_cases axis <;> rfl

/-- Axis projection of the Add<Vec3> impl for Aabb. -/
lemma Aabbq.addOffset_axisInterval (b : Aabbq) (o : Vec3q) (axis : Fin 3) :
    (b.addOffset o).axisInterval axis =
      ⟨(b.axisInterval axis).min.add (Fq.fin (o.comp axis)),
       (b.axisInterval axis).max.add (Fq.fin (o.comp axis))⟩ := by
  fin_cases axis <;> rfl

/-- Merging two ordered finite intervals of size at least DELTA keeps the
size at least DELTA. -/
lemma merge_size_ok (a A b B : ℚ) (hA : Aabbq.DELTA ≤ A - a) (hB : Aabbq.DELTA ≤ B - b) :
    Fq.le (Fq.fin Aabbq.DELTA)
      ((⟨Fq.fin a, Fq.fin A⟩ : IntervalF).merge ⟨Fq.fin b, Fq.fin B⟩).size = true := by
  simp only [IntervalF.merge, IntervalF.size, Fq.fmin, Fq.fmax, Fq.le, Fq.sub,
    decide_eq_true_eq]
  split_ifs <;> simp_all [Fq.sub, Fq.le, decide_eq_true_eq] <;> linarith

/-- C4, counterexample to the claim as stated: the empty (default) AABB is
built without padding; each of its axis intervals is (+inf, -inf), whose size
is -inf, so the size is not at least DELTA. -/
theorem aabb_padding_counterexample :
    Aabbq.emptyBox.x.size = Fq.ninf ∧
      Fq.le (Fq.fin Aabbq.DELTA) Aabbq.emptyBox.x.size = false := by
  constructor <;> with_unfolding_all decide

/-- C4 (amended): every AABB built by Aabb::new from three finite ordered
intervals, or by Aabb::new_point from two corner points, has size at least
DELTA = 10^-4 on each of its three axes; merging two finite boxes that
satisfy the invariant and translating a finite box that satisfies it
preserve the invariant; the empty/default box, by contrast, is built without
padding and has size -inf on every axis. -/
theorem aabb_padding_invariant :
    (∀ mx Mx my My mz Mz : ℚ, mx ≤ Mx → my ≤ My → mz ≤ Mz →
        Aabbq.PaddedOK (Aabbq.new ⟨Fq.fin mx, Fq.fin Mx⟩ ⟨Fq.fin my, Fq.fin My⟩
          ⟨Fq.fin mz, Fq.fin Mz⟩)) ∧
    (∀ a b : Vec3q, Aabbq.PaddedOK (Aabbq.newPoint a b)) ∧
    (∀ b1 b2 : Aabbq, b1.FiniteBounds → b2.FiniteBounds →
        b1.PaddedOK → b2.PaddedOK → (b1.merge b2).PaddedOK) ∧
    (∀ (b : Aabbq) (o : Vec3q), b.FiniteBounds → b.PaddedOK →
        (b.addOffset o).PaddedOK) ∧
    (∀ axis : Fin 3, (Aabbq.emptyBox.axisInterval axis).size = Fq.ninf) := by
  refine ⟨?_, ?_, ?_, ?_, ?_⟩
  · intro mx Mx my My mz Mz hx hy hz axis
    rw [Aabbq.new_axisInterval]
    fin_cases axis
    · exact padIntervalToMinimum_ok mx Mx hx
    · exact padIntervalToMinimum_ok my My hy
    · exact padIntervalToMinimum_ok mz Mz hz
  · intro a b axis
    rw [Aabbq.newPoint, Aabbq.new_axisInterval]
    fin_cases axis <;> dsimp only [Aabbq.axisInterval] <;> split_ifs with h
    · exact padIntervalToMinimum_ok _ _ h
    · exact padIntervalToMinimum_ok _ _ (le_of_not_le h)
    · exact padIntervalToMinimum_ok _ _ h
    · exact padIntervalToMinimum_ok _ _ (le_of_not_le h)
    · exact padIntervalToMinimum_ok _ _ h
    · exact padIntervalToMinimum_ok _ _ (le_of_not_le h)
  · intro b1 b2 hf1 hf2 hp1 hp2 axis
    obtain ⟨m1, M1, e1⟩ := hf1 axis
    obtain ⟨m2, M2, e2⟩ := hf2 axis
    have h1 := hp1 axis
    have h2 := hp2 axis
    rw [e1] at h1
    rw [e2] at h2
    simp only [IntervalF.size, Fq.sub, Fq.le, decide_eq_true_eq] at h1 h2
    rw [Aabbq.merge_axisInterval, e1, e2]
    exact merge_size_ok m1 M1 m2 M2 h1 h2
  · intro b o hf hp axis
    obtain ⟨m, M, e⟩ := hf axis
    have h := hp axis
    rw [e] at h
    simp only [IntervalF.size, Fq.sub, Fq.le, decide_eq_true_eq] at h
    rw [Aabbq.addOffset_axisInterval, e]
    simp only [IntervalF.size, Fq.add, Fq.sub, Fq.le, decide_eq_true_eq]
    linarith
  · intro axis
    fin_cases axis <;> rfl

/-- Witness: the amended C4 theorem applied to concrete boxes. -/
theorem aabb_padding_invariant_witness :
    Aabbq.PaddedOK (Aabbq.new ⟨Fq.fin 0, Fq.fin 1⟩ ⟨Fq.fin 0, Fq.fin 0⟩
        ⟨Fq.fin 2, Fq.fin 3⟩) ∧
      Aabbq.PaddedOK (Aabbq.newPoint ⟨1, 2, 3⟩ ⟨0, 5, 1⟩) ∧
      Aabbq.PaddedOK (unitCube.merge unitCube) ∧
      Aabbq.PaddedOK (unitCube.addOffset ⟨1, 2, 3⟩) := by
  have hfin : unitCube.FiniteBounds := by
    intro axis
    fin_cases axis <;> exact ⟨0, 1, rfl⟩
  have hpad : unitCube.PaddedOK := by
    with_unfolding_all decide
  exact ⟨aabb_padding_invariant.1 0 1 0 0 2 3 (by norm_num) (by norm_num) (by norm_num),
    aabb_padding_invariant.2.1 ⟨1, 2, 3⟩ ⟨0, 5, 1⟩,
    aabb_padding_invariant.2.2.1 unitCube unitCube hfin hfin hpad hpad,
    aabb_padding_invariant.2.2.2.1 unitCube ⟨1, 2, 3⟩ hfin hpad⟩

/-- Binary tree of scene objects, the shape built by BvhNode: a leaf is a
child hittable, a node is a BvhNode with its two children. -/
inductive BvhTree (α : Type) where
  | leaf (a : α) : BvhTree α
  | node (left right : BvhTree α) : BvhTree α

/-- BvhNode::box_compare with result Ordering::Less: the minimum of the
first object's bounding interval on the chosen axis is strictly below the
second's.  Incomparable (NaN) minima compare as Equal, hence not Less. -/
def boxCompareLess {α : Type} (bb : α → Aabbq) (axis : Fin 3) (a b : α) : Bool :=
  Fq.lt ((bb a).axisInterval axis).min ((bb b).axisInterval axis).min

/-- BvhNode::new_from_objects, indexed by fuel so that the recursion is a
total function; `none` means the recursion did not reach its base cases
within the given fuel.  Each node draws its sorting axis from the head of
the stream `axes`; the recursive calls see the shifted stream.  A slice of
length one duplicates its object on both sides; a slice of length two orders
the two objects by the comparator; a longer slice is sorted by the
comparator, split at the median, and both halves are built recursively. -/
def bvhBuildFuel {α : Type} (bb : α → Aabbq) (axes : ℕ → Fin 3) :
    ℕ → List α → Option (BvhTree α)
  | 0, _ => none
  | fuel + 1, objects =>
    match objects with
    | [a] => some (.node (.leaf a) (.leaf a))
    | [a, b] =>
      if boxCompareLess bb (axes 0) a b then some (.node (.leaf a) (.leaf b))
      else some (.node (.leaf b) (.leaf a))
    | objs =>
      let sorted := objs.mergeSort (fun a b => !(boxCompareLess bb (axes 0) b a))
      let mid := objs.length / 2
      match bvhBuildFuel bb (fun n => axes (n + 1)) fuel (sorted.take mid),
            bvhBuildFuel bb (fun n => axes (n + 1)) fuel (sorted.drop mid) with
      | some l, some r => some (.node l r)
      | _, _ => none

/-- BVH construction reaches a base case on every non-empty list once the
fuel is at least the length of the list. -/
lemma bvhBuildFuel_isSome {α : Type} (bb : α → Aabbq) :
    ∀ (fuel : ℕ) (axes : ℕ → Fin 3) (objects : List α),
      objects ≠ [] → objects.length ≤ fuel →
      (bvhBuildFuel bb axes fuel objects).isSome = true := by
  intro fuel
  induction fuel with
  | zero =>
    intro axes objects hne hlen
    cases objects with
    | nil => exact absurd rfl hne
    | cons a t => simp at hlen
  | succ fuel ih =>
    intro axes objects hne hlen
    cases objects with
    | nil => exact absurd rfl hne
    | cons a rest =>
      cases rest with
      | nil => rfl
      | cons b rest2 =>
        cases rest2 with
        | nil =>
          show (if boxCompareLess bb (axes 0) a b then
              some (BvhTree.node (.leaf a) (.leaf b))
            else some (BvhTree.node (.leaf b) (.leaf a))).isSome = true
          split_ifs <;> rfl
        | cons c rest3 =>
          have e : bvhBuildFuel bb axes (fuel + 1) (a :: b :: c :: rest3) =
              (match bvhBuildFuel bb (fun n => axes (n + 1)) fuel
                  (((a :: b :: c :: rest3).mergeSort
                    (fun x y => !(boxCompareLess bb (axes 0) y x))).take
                    ((a :: b :: c :: rest3).length / 2)),
                bvhBuildFuel bb (fun n => axes (n + 1)) fuel
                  (((a :: b :: c :: rest3).mergeSort
                    (fun x y => !(boxCompareLess bb (axes 0) y x))).drop
                    ((a :: b :: c :: rest3).length / 2)) with
              | some l, some r => some (.node l r)
              | _, _ => none) := rfl
          have hlen' : (a :: b :: c :: rest3).length = rest3.length + 3 := by
            simp
          have hTakeLen :
              (((a :: b :: c :: rest3).mergeSort
                (fun x y => !(boxCompareLess bb (axes 0) y x))).take
                ((a :: b :: c :: rest3).length / 2)).length =
                (a :: b :: c :: rest3).length / 2 := by
            rw [List.length_take, List.length_mergeSort]
            omega
          have hDropLen :
              (((a :: b :: c :: rest3).mergeSort
                (fun x y => !(boxCompareLess bb (axes 0) y x))).drop
                ((a :: b :: c :: rest3).length / 2)).length =
                (a :: b :: c :: rest3).length - (a :: b :: c :: rest3).length / 2 := by
            rw [List.length_drop, List.length_mergeSort]
          have h1 := ih (fun n => axes (n + 1))
            (((a :: b :: c :: rest3).mergeSort
              (fun x y => !(boxCompareLess bb (axes 0) y x))).take
              ((a :: b :: c :: rest3).length / 2))
            (by
              rw [← List.length_pos_iff_ne_nil, hTakeLen]
              omega)
            (by
              rw [hTakeLen]
              omega)
          have h2 := ih (fun n => axes (n + 1))
            (((a :: b :: c :: rest3).mergeSort
              (fun x y => !(boxCompareLess bb (axes 0) y x))).drop
              ((a :: b :: c :: rest3).length / 2))
            (by
              rw [← List.length_pos_iff_ne_nil, hDropLen]
              omega)
            (by
              rw [hDropLen]
              omega)
          obtain ⟨l, el⟩ := Option.isSome_iff_exists.mp h1
          obtain ⟨r, er⟩ := Option.isSome_iff_exists.mp h2
          rw [e, el, er]
          rfl

/-- On the empty list the BVH recursion never reaches a base case: the sorted
empty slice splits into two empty slices, and every amount of fuel runs out. -/
lemma bvhBuildFuel_nil {α : Type} (bb : α → Aabbq) :
    ∀ (fuel : ℕ) (axes : ℕ → Fin 3), bvhBuildFuel bb axes fuel ([] : List α) = none := by
  intro fuel
  induction fuel with
  | zero => intro axes; rfl
  | succ fuel ih =>
    intro axes
    have e : bvhBuildFuel bb axes (fuel + 1) ([] : List α) =
        (match bvhBuildFuel bb (fun n => axes (n + 1)) fuel
            ((([] : List α).mergeSort
              (fun x y => !(boxCompareLess bb (axes 0) y x))).take
              (([] : List α).length / 2)),
          bvhBuildFuel bb (fun n => axes (n + 1)) fuel
            ((([] : List α).mergeSort
              (fun x y => !(boxCompareLess bb (axes 0) y x))).drop
              (([] : List α).length / 2)) with
        | some l, some r => some (.node l r)
        | _, _ => none) := rfl
    rw [e]
    simp only [List.mergeSort_nil, List.take_nil, List.drop_nil, ih]

/-- C10: BVH construction (BvhNode::new_from_objects) terminates for every
non-empty object list: lists of length 1 and 2 are base cases, and for
length at least 3 the sorted list is split at the median into two strictly
shorter non-empty halves on which construction recurses; on the empty list
the recursion never reaches a base case (it loops on the empty left half),
so non-emptiness of the input is a necessary precondition.  Termination is
expressed by fuel: fuel equal to the list length always suffices for a
non-empty list, while on the empty list every amount of fuel is exhausted. -/
theorem bvh_build_from_objects_termination (α : Type) (bb : α → Aabbq) :
    (∀ (axes : ℕ → Fin 3) (fuel : ℕ) (objects : List α), objects ≠ [] →
        objects.length ≤ fuel → (bvhBuildFuel bb axes fuel objects).isSome = true) ∧
    (∀ (axis : Fin 3) (objects : List α), 3 ≤ objects.length →
        (0 < ((objects.mergeSort
            (fun a b => !(boxCompareLess bb axis b a))).take (objects.length / 2)).length ∧
          ((objects.mergeSort
            (fun a b => !(boxCompareLess bb axis b a))).take (objects.length / 2)).length
            < objects.length) ∧
        (0 < ((objects.mergeSort
            (fun a b => !(boxCompareLess bb axis b a))).drop (objects.length / 2)).length ∧
          ((objects.mergeSort
            (fun a b => !(boxCompareLess bb axis b a))).drop (objects.length / 2)).length
            < objects.length)) ∧
    (∀ (axes : ℕ → Fin 3) (fuel : ℕ), bvhBuildFuel bb axes fuel ([] : List α) = none) := by
  refine ⟨?_, ?_, ?_⟩
  · intro axes fuel objects hne hlen
    exact bvhBuildFuel_isSome bb fuel axes objects hne hlen
  · intro axis objects h3
    simp only [List.length_take, List.length_drop, List.length_mergeSort]
    omega
  · intro axes fuel
    exact bvhBuildFuel_nil bb fuel axes

/-- Witness: BVH construction over three concrete objects succeeds with fuel
three, and diverges (returns none for every fuel, here five) on the empty
list. -/
theorem bvh_build_from_objects_termination_witness :
    (bvhBuildFuel (fun _ : ℕ => unitCube) (fun _ => 0) 3 [1, 2, 3]).isSome = true ∧
      bvhBuildFuel (fun _ : ℕ => unitCube) (fun _ => 0) 5 ([] : List ℕ) = none :=
  ⟨(bvh_build_from_objects_termination ℕ (fun _ => unitCube)).1 (fun _ => 0) 3 [1, 2, 3]
      (by simp) (by simp),
    (bvh_build_from_objects_termination ℕ (fun _ => unitCube)).2.2 (fun _ => 0) 5⟩

/-
The real-number layer.  The geometric kernels do exact real arithmetic; the
interval endpoints live in EReal so that (0.001, +inf) and the universe
interval are representable.  Definitions are noncomputable because they use
real division, square roots and classical branching, exactly where the
source uses f64 operations.
-/

noncomputable section

open scoped Classical

/-- Real 3-vector, also used for points and colors (nalgebra Vector3/Point3
with f64 entries in the source). -/
structure Vec3 where
  x : ℝ
  y : ℝ
  z : ℝ

namespace Vec3

/-- Vec3::zeros / Color::zeros. -/
def zeros : Vec3 := ⟨0, 0, 0⟩

instance : Add Vec3 := ⟨fun a b => ⟨a.x + b.x, a.y + b.y, a.z + b.z⟩⟩

instance : Sub Vec3 := ⟨fun a b => ⟨a.x - b.x, a.y - b.y, a.z - b.z⟩⟩

instance : Neg Vec3 := ⟨fun a => ⟨-a.x, -a.y, -a.z⟩⟩

instance : SMul ℝ Vec3 := ⟨fun c a => ⟨c * a.x, c * a.y, c * a.z⟩⟩

/-- Scalar division, as in vector / scalar. -/
def sdiv (a : Vec3) (c : ℝ) : Vec3 := ⟨a.x / c, a.y / c, a.z / c⟩

/-- Dot product. -/
def dot (a b : Vec3) : ℝ := a.x * b.x + a.y * b.y + a.z * b.z

/-- Cross product. -/
def cross (a b : Vec3) : Vec3 :=
  ⟨a.y * b.z - a.z * b.y, a.z * b.x - a.x * b.z, a.x * b.y - a.y * b.x⟩

/-- norm_squared. -/
def normSq (a : Vec3) : ℝ := a.x * a.x + a.y * a.y + a.z * a.z

/-- norm. -/
def norm (a : Vec3) : ℝ := Real.sqrt a.normSq

/-- normalize, the vector divided by its norm. -/
def normalize (a : Vec3) : Vec3 := a.sdiv a.norm

/-- component_mul, the componentwise product used for attenuation. -/
def compMul (a b : Vec3) : Vec3 := ⟨a.x * b.x, a.y * b.y, a.z * b.z⟩

/-- Vec3Ext::near_zero: every component below 1e-8 in absolute value. -/
def nearZero (a : Vec3) : Prop :=
  |a.x| < 1e-8 ∧ |a.y| < 1e-8 ∧ |a.z| < 1e-8

end Vec3

/-- Interval with extended-real endpoints, the real-layer counterpart of
core/interval.rs; (0.001, +inf) and the universe interval are values. -/
structure IntervalE where
  min : EReal
  max : EReal

namespace IntervalE

/-- Interval::universe. -/
def universeE : IntervalE := ⟨⊥, ⊤⟩

/-- Interval::contains, closed membership of a real parameter. -/
def containsE (i : IntervalE) (t : ℝ) : Prop :=
  i.min ≤ (t : EReal) ∧ (t : EReal) ≤ i.max

/-- Interval::surrounds, strict membership of a real parameter. -/
def surroundsE (i : IntervalE) (t : ℝ) : Prop :=
  i.min < (t : EReal) ∧ (t : EReal) < i.max

end IntervalE

/-- Ray with real coordinates and shutter time, mirroring core/ray.rs. -/
structure RayR where
  orig : Vec3
  dir : Vec3
  time : ℝ

/-- Ray::at. -/
def RayR.at (r : RayR) (t : ℝ) : Vec3 := r.orig + t • r.dir

/-- Probability density handle: the value function of the PDF trait.  The
direction its generate() would draw is supplied externally (randomness is
passed explicitly). -/
structure PDFm where
  value : Vec3 → ℝ

/-- The surface part of an Interaction (everything except the material
handle), which is what the material callbacks read. -/
structure SurfData where
  p : Vec3
  geometry_normal : Vec3
  shading_normal : Vec3
  wo : Vec3
  t : ℝ
  uv : ℝ × ℝ
  front_face : Bool

/-- ScatterRecord from materials/material_trait.rs. -/
structure ScatterRec where
  attenuation : Vec3
  pdf_ptr : Option PDFm
  skip_pdf : Bool
  skip_pdf_ray : RayR

/-- Material trait: scatter (None models returning false), emitted, and the
scattering PDF. -/
structure Material where
  scatter : RayR → SurfData → Option ScatterRec
  emitted : RayR → SurfData → ℝ → ℝ → Vec3 → Vec3
  scatteringPdf : RayR → SurfData → RayR → ℝ

/-- Interaction from core/interaction.rs: the surface data together with the
optional material handle. -/
structure Interaction extends SurfData where
  material : Option Material

/-- Interaction::new. -/
def Interaction.make (p : Vec3) (t : ℝ) (uv : ℝ × ℝ) (material : Option Material) :
    Interaction :=
  { p := p
    geometry_normal := Vec3.zeros
    shading_normal := Vec3.zeros
    wo := Vec3.zeros
    t := t
    uv := uv
    front_face := true
    material := material }

/-- Interaction::default. -/
def Interaction.dfl : Interaction :=
  { p := Vec3.zeros
    geometry_normal := Vec3.zeros
    shading_normal := Vec3.zeros
    wo := Vec3.zeros
    t := 0
    uv := (0, 0)
    front_face := true
    material := none }

/-- Interaction::set_face_normal: store whether the ray hits the front face,
orient the geometric normal against the ray, copy it to the shading normal,
and record the unit outgoing direction. -/
def Interaction.setFaceNormal (i : Interaction) (r : RayR) (outward : Vec3) :
    Interaction :=
  { i with
    front_face := decide (r.dir.dot outward < 0)
    geometry_normal := if r.dir.dot outward < 0 then outward else -outward
    shading_normal := if r.dir.dot outward < 0 then outward else -outward
    wo := -(r.dir.normalize) }

@[simp] lemma Vec3.add_x (a b : Vec3) : (a + b).x = a.x + b.x := rfl

@[simp] lemma Vec3.add_y (a b : Vec3) : (a + b).y = a.y + b.y := rfl

@[simp] lemma Vec3.add_z (a b : Vec3) : (a + b).z = a.z + b.z := rfl

@[simp] lemma Vec3.sub_x (a b : Vec3) : (a - b).x = a.x - b.x := rfl

@[simp] lemma Vec3.sub_y (a b : Vec3) : (a - b).y = a.y - b.y := rfl

@[simp] lemma Vec3.sub_z (a b : Vec3) : (a - b).z = a.z - b.z := rfl

@[simp] lemma Vec3.neg_x (a : Vec3) : (-a).x = -a.x := rfl

@[simp] lemma Vec3.neg_y (a : Vec3) : (-a).y = -a.y := rfl

@[simp] lemma Vec3.neg_z (a : Vec3) : (-a).z = -a.z := rfl

@[simp] lemma Vec3.smul_x (c : ℝ) (a : Vec3) : (c • a).x = c * a.x := rfl

@[simp] lemma Vec3.smul_y (c : ℝ) (a : Vec3) : (c • a).y = c * a.y := rfl

@[simp] lemma Vec3.smul_z (c : ℝ) (a : Vec3) : (c • a).z = c * a.z := rfl

@[simp] lemma Vec3.sdiv_x (a : Vec3) (c : ℝ) : (a.sdiv c).x = a.x / c := rfl

@[simp] lemma Vec3.sdiv_y (a : Vec3) (c : ℝ) : (a.sdiv c).y = a.y / c := rfl

@[simp] lemma Vec3.sdiv_z (a : Vec3) (c : ℝ) : (a.sdiv c).z = a.z / c := rfl

@[simp] lemma Vec3.zeros_x : Vec3.zeros.x = 0 := rfl

@[simp] lemma Vec3.zeros_y : Vec3.zeros.y = 0 := rfl

@[simp] lemma Vec3.zeros_z : Vec3.zeros.z = 0 := rfl

/-- Extensionality for real 3-vectors. -/
lemma Vec3.ext_iff {a b : Vec3} : a = b ↔ a.x = b.x ∧ a.y = b.y ∧ a.z = b.z := by
  constructor
  · rintro rfl
    exact ⟨rfl, rfl, rfl⟩
  · obtain ⟨ax, ay, az⟩ := a
    obtain ⟨bx, by', bz⟩ := b
    rintro ⟨h1, h2, h3⟩
    simp only at h1 h2 h3
    rw [h1, h2, h3]

/-- The outgoing direction dotted with any vector, in closed form. -/
lemma neg_normalize_dot (d g : Vec3) :
    (-(d.normalize)).dot g = -(d.dot g) / d.norm := by
  simp only [Vec3.dot, Vec3.normalize, Vec3.sdiv, Vec3.neg_x, Vec3.neg_y, Vec3.neg_z]
  ring

/-- C6: after Interaction::set_face_normal with a unit outward normal,
front_face holds exactly when the ray direction makes a negative dot product
with the outward normal; the geometric normal is the outward normal when
front_face and its negation otherwise, so it points against the incident
ray; wo is the negated normalized ray direction; and wo and the geometric
normal make a nonnegative dot product. -/
theorem set_face_normal_spec (i : Interaction) (r : RayR) (n : Vec3)
    (hn : n.normSq = 1) :
    ((i.setFaceNormal r n).front_face = true ↔ r.dir.dot n < 0) ∧
    (i.setFaceNormal r n).geometry_normal = (if r.dir.dot n < 0 then n else -n) ∧
    r.dir.dot (i.setFaceNormal r n).geometry_normal ≤ 0 ∧
    (i.setFaceNormal r n).wo = -(r.dir.normalize) ∧
    0 ≤ (i.setFaceNormal r n).wo.dot (i.setFaceNormal r n).geometry_normal := by
  have hdotg : r.dir.dot (i.setFaceNormal r n).geometry_normal ≤ 0 := by
    simp only [Interaction.setFaceNormal]
    split_ifs with h
    · exact le_of_lt h
    · have : r.dir.dot (-n) = -(r.dir.dot n) := by
        simp only [Vec3.dot, Vec3.neg_x, Vec3.neg_y, Vec3.neg_z]
        ring
      rw [this]
      push_neg at h
      linarith
  refine ⟨by simp [Interaction.setFaceNormal], rfl, hdotg, rfl, ?_⟩
  have e : (i.setFaceNormal r n).wo.dot (i.setFaceNormal r n).geometry_normal =
      -(r.dir.dot (i.setFaceNormal r n).geometry_normal) / r.dir.norm := by
    exact neg_normalize_dot r.dir _
  rw [e]
  exact div_nonneg (by linarith) (Real.sqrt_nonneg _)

/-- Witness: the C6 theorem applied to a unit normal opposing a concrete
ray. -/
theorem set_face_normal_spec_witness :
    ((Interaction.dfl.setFaceNormal ⟨Vec3.zeros, ⟨0, 0, 1⟩, 0⟩ ⟨0, 0, -1⟩).front_face = true ↔
      (⟨0, 0, 1⟩ : Vec3).dot ⟨0, 0, -1⟩ < 0) ∧
    (Interaction.dfl.setFaceNormal ⟨Vec3.zeros, ⟨0, 0, 1⟩, 0⟩ ⟨0, 0, -1⟩).geometry_normal =
      (if (⟨0, 0, 1⟩ : Vec3).dot ⟨0, 0, -1⟩ < 0 then (⟨0, 0, -1⟩ : Vec3) else -⟨0, 0, -1⟩) ∧
    (⟨0, 0, 1⟩ : Vec3).dot
      (Interaction.dfl.setFaceNormal ⟨Vec3.zeros, ⟨0, 0, 1⟩, 0⟩ ⟨0, 0, -1⟩).geometry_normal ≤ 0 ∧
    (Interaction.dfl.setFaceNormal ⟨Vec3.zeros, ⟨0, 0, 1⟩, 0⟩ ⟨0, 0, -1⟩).wo =
      -((⟨0, 0, 1⟩ : Vec3).normalize) ∧
    0 ≤ (Interaction.dfl.setFaceNormal ⟨Vec3.zeros, ⟨0, 0, 1⟩, 0⟩ ⟨0, 0, -1⟩).wo.dot
      (Interaction.dfl.setFaceNormal ⟨Vec3.zeros, ⟨0, 0, 1⟩, 0⟩ ⟨0, 0, -1⟩).geometry_normal := by
  have hn : (⟨0, 0, -1⟩ : Vec3).normSq = 1 := by
    simp [Vec3.normSq]
  exact set_face_normal_spec Interaction.dfl ⟨Vec3.zeros, ⟨0, 0, 1⟩, 0⟩ ⟨0, 0, -1⟩ hn

/-- The hit interface of a hittable: a ray and a parameter interval give an
optional interaction (None models hit returning false). -/
def HitFn : Type := RayR → IntervalE → Option Interaction

/-- Translate::hit from geometry/transforms/translate.rs: shift the incoming
ray origin back by the offset, delegate to the child, and shift the returned
hit point forward by the offset; every other field is left as the child set
it. -/
def translateHit (child : HitFn) (offset : Vec3) (r : RayR) (ray_t : IntervalE) :
    Option Interaction :=
  match child ⟨r.orig - offset, r.dir, r.time⟩ ray_t with
  | none => none
  | some isect => some { isect with p := isect.p + offset }

/-- C8: Translate::hit returns a hit exactly when the child's hit on the ray
with origin shifted by -offset (same direction and time) does, and the
returned interaction equals the child's result except that the hit point is
shifted by +offset; t, uv, the geometric and shading normals, front_face,
wo, and the material are unchanged. -/
theorem translate_hit_spec (child : HitFn) (offset : Vec3) (r : RayR)
    (ray_t : IntervalE) :
    (translateHit child offset r ray_t = none ↔
      child ⟨r.orig - offset, r.dir, r.time⟩ ray_t = none) ∧
    (∀ isect, child ⟨r.orig - offset, r.dir, r.time⟩ ray_t = some isect →
      ∃ res, translateHit child offset r ray_t = some res ∧
        res.p = isect.p + offset ∧
        res.t = isect.t ∧
        res.uv = isect.uv ∧
        res.geometry_normal = isect.geometry_normal ∧
        res.shading_normal = isect.shading_normal ∧
        res.front_face = isect.front_face ∧
        res.wo = isect.wo ∧
        res.material = isect.material) := by
  constructor
  · unfold translateHit
    cases h : child ⟨r.orig - offset, r.dir, r.time⟩ ray_t <;> simp
  · intro isect hc
    refine ⟨{ isect with p := isect.p + offset }, ?_, rfl, rfl, rfl, rfl, rfl, rfl, rfl, rfl⟩
    unfold translateHit
    rw [hc]

/-- Witness: the C8 theorem applied to a child that reports the shifted ray
origin as its hit point. -/
theorem translate_hit_spec_witness :
    ∃ res,
      translateHit (fun r' _ => some (Interaction.make r'.orig 1 (0, 0) none))
          ⟨5, 0, 0⟩ ⟨⟨1, 2, 3⟩, ⟨0, 0, 1⟩, 0⟩ ⟨(0.001 : ℝ), ⊤⟩ = some res ∧
        res.p = (Interaction.make ((⟨1, 2, 3⟩ : Vec3) - ⟨5, 0, 0⟩) 1 (0, 0) none).p
            + ⟨5, 0, 0⟩ ∧
        res.t = 1 ∧
        res.uv = (0, 0) ∧
        res.geometry_normal = Vec3.zeros ∧
        res.shading_normal = Vec3.zeros ∧
        res.front_face = true ∧
        res.wo = Vec3.zeros ∧
        res.material = none := by
  obtain ⟨res, h1, h2, h3, h4, h5, h6, h7, h8, h9⟩ :=
    (translate_hit_spec (fun r' _ => some (Interaction.make r'.orig 1 (0, 0) none))
        ⟨5, 0, 0⟩ ⟨⟨1, 2, 3⟩, ⟨0, 0, 1⟩, 0⟩ ⟨(0.001 : ℝ), ⊤⟩).2
      (Interaction.make ((⟨1, 2, 3⟩ : Vec3) - ⟨5, 0, 0⟩) 1 (0, 0) none) rfl
  exact ⟨res, h1, h2, h3, h4, h5, h6, h7, h8, h9⟩

/-- Two-argument arctangent with the quadrant conventions of f64::atan2
(y.atan2(x)); the pole cases follow IEEE: atan2 of a positive y with zero x
is pi/2, of a negative y is -pi/2, and atan2 0 0 is 0. -/
def atan2 (y x : ℝ) : ℝ :=
  if 0 < x then Real.arctan (y / x)
  else if x < 0 then
    (if 0 ≤ y then Real.arctan (y / x) + Real.pi else Real.arctan (y / x) - Real.pi)
  else
    (if 0 < y then Real.pi / 2 else if y < 0 then -(Real.pi / 2) else 0)

/-- Sphere::get_sphere_uv: spherical texture coordinates of a point on the
unit sphere. -/
def getSphereUv (p : Vec3) : ℝ × ℝ :=
  let theta := Real.arccos (-p.y)
  let phi := atan2 (-p.z) p.x + Real.pi
  (phi / (2 * Real.pi), theta / Real.pi)

/-- Sphere from geometry/sphere.rs. -/
structure SphereR where
  center : Vec3
  radius : ℝ
  material : Material
  is_moving : Bool
  center_vec : Vec3

/-- Sphere::center, the effective center at the ray time. -/
def SphereR.centerAt (s : SphereR) (time : ℝ) : Vec3 :=
  if s.is_moving then s.center + time • s.center_vec else s.center

/-- The interaction Sphere::hit builds once a root is accepted. -/
def SphereR.mkHit (s : SphereR) (r : RayR) (t : ℝ) (center : Vec3) : Interaction :=
  let p := r.at t
  let outward := (p - center).sdiv s.radius
  (Interaction.make p t (getSphereUv outward) (some s.material)).setFaceNormal r outward

/-- Sphere::hit: the quadratic slab of the moving sphere, trying the smaller
root first under the strict surrounds test, then the larger. -/
def SphereR.hit (s : SphereR) (r : RayR) (ray_t : IntervalE) : Option Interaction :=
  let center := s.centerAt r.time
  let oc := r.orig - center
  let a := r.dir.normSq
  let half_b := oc.dot r.dir
  let c := oc.normSq - s.radius * s.radius
  let discriminant := half_b * half_b - a * c
  if discriminant < 0 then none
  else
    let sqrtd := Real.sqrt discriminant
    if ray_t.surroundsE ((-half_b - sqrtd) / a) then
      some (s.mkHit r ((-half_b - sqrtd) / a) center)
    else if ray_t.surroundsE ((-half_b + sqrtd) / a) then
      some (s.mkHit r ((-half_b + sqrtd) / a) center)
    else none

/-- Evaluation of Sphere::hit for the unit sphere at the origin and the ray
from (0,0,-5) along +z on (0.001, +inf): hit at t = 4, point (0,0,-1),
outward normal (0,0,-1) oriented front-face, and uv = (3/4, 1/2). -/
lemma sphere_hit_unit_eval (m : Material) :
    SphereR.hit ⟨Vec3.zeros, 1, m, false, Vec3.zeros⟩ ⟨⟨0, 0, -5⟩, ⟨0, 0, 1⟩, 0⟩
        ⟨((0.001 : ℝ) : EReal), ⊤⟩ =
      some { p := ⟨0, 0, -1⟩, geometry_normal := ⟨0, 0, -1⟩,
             shading_normal := ⟨0, 0, -1⟩, wo := ⟨0, 0, -1⟩, t := 4,
             uv := (3 / 4, 1 / 2), front_face := true, material := some m } := by
  simp only [SphereR.hit, SphereR.centerAt, SphereR.mkHit, RayR.at, IntervalE.surroundsE,
    Interaction.make, Interaction.setFaceNormal, getSphereUv, atan2,
    Vec3.dot, Vec3.normSq, Vec3.normalize, Vec3.norm, Vec3.sdiv,
    Vec3.add_x, Vec3.add_y, Vec3.add_z, Vec3.sub_x, Vec3.sub_y, Vec3.sub_z,
    Vec3.neg_x, Vec3.neg_y, Vec3.neg_z, Vec3.smul_x, Vec3.smul_y, Vec3.smul_z,
    Vec3.zeros_x, Vec3.zeros_y, Vec3.zeros_z, Bool.false_eq_true, if_false]
  norm_num [Real.sqrt_one, EReal.coe_lt_coe_iff, EReal.coe_lt_top, Real.arccos_zero,
    Real.pi_ne_zero, decide_eq_true_eq]
  refine ⟨?_, ?_, ?_, ?_⟩
  · rw [Vec3.ext_iff]
    norm_num
  · rw [Vec3.ext_iff]
    norm_num
  · field_simp
    ring
  · field_simp
    ring

/-- A throwaway concrete material (an absorber); Sphere::hit only stores the
material handle, so any material exercises the geometric claim. -/
def matArb : Material :=
  ⟨fun _ _ => none, fun _ _ _ _ _ => Vec3.zeros, fun _ _ _ => 0⟩

/-- C3 (amended): for the unit sphere at the origin with any material,
Sphere::hit with ray origin (0,0,-5), direction (0,0,1), time 0 on
(0.001, +inf) succeeds with t = 4, point (0,0,-1), outward normal (0,0,-1)
kept as the front-face geometric normal, front_face = true, and texture
coordinates uv = (0.75, 0.5) (not (0.25, 0.5) as claimed); the coordinates
come from theta = acos(-p.y), phi = atan2(-p.z, p.x) + pi, u = phi/(2 pi),
v = theta/pi, which at p = (0,0,-1) give u = 3/4. -/
theorem sphere_hit_unit_scenario :
    (∀ m : Material,
      SphereR.hit ⟨Vec3.zeros, 1, m, false, Vec3.zeros⟩ ⟨⟨0, 0, -5⟩, ⟨0, 0, 1⟩, 0⟩
          ⟨((0.001 : ℝ) : EReal), ⊤⟩ =
        some { p := ⟨0, 0, -1⟩, geometry_normal := ⟨0, 0, -1⟩,
               shading_normal := ⟨0, 0, -1⟩, wo := ⟨0, 0, -1⟩, t := 4,
               uv := (3 / 4, 1 / 2), front_face := true, material := some m }) ∧
    (∀ p : Vec3, getSphereUv p =
      ((atan2 (-p.z) p.x + Real.pi) / (2 * Real.pi), Real.arccos (-p.y) / Real.pi)) := by
  exact ⟨sphere_hit_unit_eval, fun p => rfl⟩

/-- C3, counterexample to the claim as stated: the texture coordinates of
the hit are (0.75, 0.5); the claimed (0.25, 0.5) is wrong (by the claim's
own formula, phi at the normal (0,0,-1) is 3 pi/2, so u = 3/4). -/
theorem sphere_hit_uv_counterexample :
    (SphereR.hit ⟨Vec3.zeros, 1, matArb, false, Vec3.zeros⟩ ⟨⟨0, 0, -5⟩, ⟨0, 0, 1⟩, 0⟩
        ⟨((0.001 : ℝ) : EReal), ⊤⟩).map (fun i => i.uv) =
      some ((3 / 4 : ℝ), (1 / 2 : ℝ)) ∧
    ((3 / 4 : ℝ), (1 / 2 : ℝ)) ≠ ((0.25 : ℝ), (0.5 : ℝ)) := by
  constructor
  · rw [sphere_hit_unit_eval matArb]
    rfl
  · intro h
    have := congrArg Prod.fst h
    norm_num at this

/-- Quad (planar parallelogram) from geometry/quad.rs; the derived plane
data of Quad::new is defined as functions of the stored corner and edges. -/
structure QuadR where
  q : Vec3
  u : Vec3
  v : Vec3
  material : Material

namespace QuadR

/-- The unnormalized plane normal n = u x v of Quad::new. -/
def nvec (Q : QuadR) : Vec3 := Q.u.cross Q.v

/-- The unit plane normal of Quad::new. -/
def normal (Q : QuadR) : Vec3 := Q.nvec.normalize

/-- The plane constant D = normal . Q of Quad::new. -/
def dconst (Q : QuadR) : ℝ := Q.normal.dot Q.q

/-- The basis vector w = n / (n . n) of Quad::new. -/
def wvec (Q : QuadR) : Vec3 := Q.nvec.sdiv (Q.nvec.dot Q.nvec)

/-- The surface area |u x v| of Quad::new. -/
def area (Q : QuadR) : ℝ := Q.nvec.norm

/-- Quad::hit: reject near-parallel rays, solve for the plane parameter,
require it in the closed interval, compute planar barycentrics alpha, beta
via w, accept exactly when both lie in [0,1] (Quad::is_interior), and build
the interaction with uv = (alpha, beta) and the plane normal. -/
def hit (Q : QuadR) (r : RayR) (ray_t : IntervalE) : Option Interaction :=
  let denom := Q.normal.dot r.dir
  if |denom| < 1e-8 then none
  else
    let t := (Q.dconst - Q.normal.dot r.orig) / denom
    if ray_t.containsE t then
      let intersection := r.at t
      let planar := intersection - Q.q
      let alpha := Q.wvec.dot (planar.cross Q.v)
      let beta := Q.wvec.dot (Q.u.cross planar)
      if (0 ≤ alpha ∧ alpha ≤ 1) ∧ (0 ≤ beta ∧ beta ≤ 1) then
        some ((Interaction.make intersection t (alpha, beta) (some Q.material)).setFaceNormal
          r Q.normal)
      else none
    else none

/-- Quad::pdf_value: probe the quad from the origin along the direction on
(0.001, +inf); on a miss or a grazing cosine below 1e-8 the density is 0,
else distance squared over cosine times area. -/
def pdfValue (Q : QuadR) (origin direction : Vec3) : ℝ :=
  match Q.hit ⟨origin, direction, 0⟩ ⟨((0.001 : ℝ) : EReal), ⊤⟩ with
  | none => 0
  | some rec =>
    let distance_squared := rec.t * rec.t * direction.normSq
    let cosine := |direction.dot rec.geometry_normal| / direction.norm
    if cosine < 1e-8 then 0 else distance_squared / (cosine * Q.area)

end QuadR

/-- The Cornell-box light quad Q=(343,554,332), u=(-130,0,0), v=(0,0,-105). -/
def cornellLight : QuadR := ⟨⟨343, 554, 332⟩, ⟨-130, 0, 0⟩, ⟨0, 0, -105⟩, matArb⟩

lemma sqrt_cornell_area : Real.sqrt (186322500 : ℝ) = 13650 := by
  rw [show (186322500 : ℝ) = 13650 ^ 2 by norm_num,
    Real.sqrt_sq (by norm_num : (0:ℝ) ≤ 13650)]

lemma cornell_nvec : cornellLight.nvec = ⟨0, -13650, 0⟩ := by
  rw [Vec3.ext_iff]
  norm_num [QuadR.nvec, Vec3.cross, cornellLight]

lemma cornell_normal : cornellLight.normal = ⟨0, -1, 0⟩ := by
  rw [QuadR.normal, cornell_nvec]
  rw [Vec3.ext_iff]
  simp only [Vec3.normalize, Vec3.norm, Vec3.normSq, Vec3.sdiv_x, Vec3.sdiv_y, Vec3.sdiv_z]
  norm_num [sqrt_cornell_area]

lemma cornell_area : cornellLight.area = 13650 := by
  rw [QuadR.area, cornell_nvec]
  simp only [Vec3.norm, Vec3.normSq]
  norm_num [sqrt_cornell_area]

lemma cornell_q : cornellLight.q = ⟨343, 554, 332⟩ := rfl

lemma cornell_u : cornellLight.u = ⟨-130, 0, 0⟩ := rfl

lemma cornell_v : cornellLight.v = ⟨0, 0, -105⟩ := rfl

lemma cornell_light_hit_eval :
    QuadR.hit cornellLight ⟨⟨278, 278, 278⟩, ⟨0, 276, 3/2⟩, 0⟩ ⟨((0.001 : ℝ) : EReal), ⊤⟩ =
      some { p := ⟨278, 554, 559/2⟩, geometry_normal := ⟨0, -1, 0⟩,
             shading_normal := ⟨0, -1, 0⟩,
             wo := -((⟨0, 276, 3/2⟩ : Vec3).normalize), t := 1, uv := (1/2, 1/2),
             front_face := true, material := some cornellLight.material } := by
  simp only [QuadR.hit, QuadR.dconst, QuadR.wvec, cornell_normal, cornell_nvec,
    RayR.at, Interaction.make, Interaction.setFaceNormal, IntervalE.containsE,
    Vec3.dot, Vec3.cross, Vec3.sdiv, cornell_q, cornell_u, cornell_v,
    Vec3.add_x, Vec3.add_y, Vec3.add_z, Vec3.sub_x, Vec3.sub_y, Vec3.sub_z,
    Vec3.neg_x, Vec3.neg_y, Vec3.neg_z, Vec3.smul_x, Vec3.smul_y, Vec3.smul_z,
    Vec3.sdiv_x, Vec3.sdiv_y, Vec3.sdiv_z]
  norm_num [EReal.coe_le_coe_iff, decide_eq_true_eq]
  refine ⟨?_, ?_⟩
  · exact_mod_cast (by norm_num : (1 / 1000 : ℝ) ≤ 1)
  · rw [Vec3.ext_iff]
    norm_num

/-- The grazing-cosine guard does not fire for the Cornell evaluation: the
cosine 276 / sqrt(304713/4) is far above 1e-8. -/
lemma cornell_cos_large :
    ¬ (|(⟨0, 276, 3/2⟩ : Vec3).dot ⟨0, -1, 0⟩| / (⟨0, 276, 3/2⟩ : Vec3).norm < 1e-8) := by
  have hnorm : (⟨0, 276, 3/2⟩ : Vec3).norm = Real.sqrt (304713 / 4) := by
    simp only [Vec3.norm, Vec3.normSq]
    norm_num
  have hdot : (⟨0, 276, 3/2⟩ : Vec3).dot ⟨0, -1, 0⟩ = -276 := by
    simp [Vec3.dot]
  have hsq : Real.sqrt (304713 / 4) ≤ 300 := by
    rw [show (300 : ℝ) = Real.sqrt (300 ^ 2) from (Real.sqrt_sq (by norm_num)).symm]
    apply Real.sqrt_le_sqrt
    norm_num
  have hpos : 0 < Real.sqrt (304713 / 4) := Real.sqrt_pos.mpr (by norm_num)
  rw [hdot, hnorm, show |(-276 : ℝ)| = 276 from by norm_num]
  push_neg
  rw [le_div_iff hpos]
  nlinarith [hsq, hpos]

/-- Evaluation of Quad::pdf_value for the Cornell light from (278,278,278)
toward the center of the quad. -/
lemma cornell_light_pdf_eval :
    QuadR.pdfValue cornellLight ⟨278, 278, 278⟩ ⟨0, 276, 3/2⟩ =
      (304713 / 4) / ((276 / Real.sqrt (304713 / 4)) * 13650) := by
  have hnorm : (⟨0, 276, 3/2⟩ : Vec3).norm = Real.sqrt (304713 / 4) := by
    simp only [Vec3.norm, Vec3.normSq]
    norm_num
  have hdot : (⟨0, 276, 3/2⟩ : Vec3).dot ⟨0, -1, 0⟩ = -276 := by
    simp [Vec3.dot]
  simp only [QuadR.pdfValue, cornell_light_hit_eval]
  rw [if_neg cornell_cos_large]
  rw [hdot, hnorm, cornell_area, show |(-276 : ℝ)| = 276 from by norm_num]
  norm_num [Vec3.normSq]

/-- C5: Quad::pdf_value is 0 on a miss of (0.001, +inf) and when the cosine
|direction . n| / |direction| falls below 1e-8, and otherwise equals the
squared distance to the hit over the cosine times the area; for the Cornell
light quad evaluated from (278,278,278) toward the quad center (direction
(0,276,3/2)) the value matches d^2/(cos * 13650) within 1e-9 (the area
|u x v| is 130*105 = 13650). -/
theorem quad_pdf_value_spec :
    (∀ (Q : QuadR) (origin direction : Vec3),
      Q.hit ⟨origin, direction, 0⟩ ⟨((0.001 : ℝ) : EReal), ⊤⟩ = none →
        Q.pdfValue origin direction = 0) ∧
    (∀ (Q : QuadR) (origin direction : Vec3) (rec : Interaction),
      Q.hit ⟨origin, direction, 0⟩ ⟨((0.001 : ℝ) : EReal), ⊤⟩ = some rec →
        |direction.dot rec.geometry_normal| / direction.norm < 1e-8 →
        Q.pdfValue origin direction = 0) ∧
    (∀ (Q : QuadR) (origin direction : Vec3) (rec : Interaction),
      Q.hit ⟨origin, direction, 0⟩ ⟨((0.001 : ℝ) : EReal), ⊤⟩ = some rec →
        ¬ (|direction.dot rec.geometry_normal| / direction.norm < 1e-8) →
        Q.pdfValue origin direction =
          (rec.t * rec.t * direction.normSq) /
            ((|direction.dot rec.geometry_normal| / direction.norm) * Q.area)) ∧
    |QuadR.pdfValue cornellLight ⟨278, 278, 278⟩ ⟨0, 276, 3/2⟩ -
        (304713 / 4) / ((276 / Real.sqrt (304713 / 4)) * 13650)| ≤ 1e-9 := by
  refine ⟨?_, ?_, ?_, ?_⟩
  · intro Q origin direction h
    simp [QuadR.pdfValue, h]
  · intro Q origin direction rec h hcos
    simp only [QuadR.pdfValue, h]
    rw [if_pos hcos]
  · intro Q origin direction rec h hcos
    simp only [QuadR.pdfValue, h]
    rw [if_neg hcos]
  · rw [cornell_light_pdf_eval]
    norm_num

/-- Witness: the cosine branch of the C5 theorem applied to the Cornell
light quad and the direction toward its center. -/
theorem quad_pdf_value_spec_witness :
    QuadR.pdfValue cornellLight ⟨278, 278, 278⟩ ⟨0, 276, 3/2⟩ =
      ((1 : ℝ) * 1 * ((⟨0, 276, 3/2⟩ : Vec3).normSq)) /
        ((|(⟨0, 276, 3/2⟩ : Vec3).dot ⟨0, -1, 0⟩| / (⟨0, 276, 3/2⟩ : Vec3).norm) *
          cornellLight.area) :=
  quad_pdf_value_spec.2.2.1 cornellLight ⟨278, 278, 278⟩ ⟨0, 276, 3/2⟩ _
    cornell_light_hit_eval cornell_cos_large

/-- f64::EPSILON, the value 2^-52 used to clamp the uniform draw away from
zero before the logarithm. -/
def epsF64 : ℝ := 1 / 2 ^ 52

/-- ConstantMedium from geometry/constant_medium.rs.  The constructor stores
neg_inv_density = -1/density and the isotropic phase-function material built
from the texture; the phase material is carried abstractly. -/
structure ConstantMediumR where
  boundary : HitFn
  neg_inv_density : ℝ
  phase_function : Material

/-- ConstantMedium::new. -/
def ConstantMediumR.new (boundary : HitFn) (density : ℝ) (phase : Material) :
    ConstantMediumR :=
  ⟨boundary, -1 / density, phase⟩

/-- ConstantMedium::hit with the uniform draw U passed explicitly: find the
entry hit on the whole line and the exit hit past it, clip both parameters
to the caller's interval, reject unless entry < exit, raise the entry to 0,
sample the free-flight distance -ln(max(U, eps))/density, reject when it
exceeds the chord, else scatter at entry + distance/|dir| with the arbitrary
normal (1,0,0), front_face true, and the phase-function material; the other
interaction fields keep the caller's defaults.  In the surviving branch the
clipped parameters are finite, where toReal is exact. -/
def ConstantMediumR.hit (cm : ConstantMediumR) (U : ℝ) (r : RayR)
    (ray_t : IntervalE) : Option Interaction :=
  match cm.boundary r IntervalE.universeE with
  | none => none
  | some rec1 =>
    match cm.boundary r ⟨((rec1.t + 0.0001 : ℝ) : EReal), ⊤⟩ with
    | none => none
    | some rec2 =>
      let t1a : EReal := if (rec1.t : EReal) < ray_t.min then ray_t.min else (rec1.t : EReal)
      let t2a : EReal := if ray_t.max < (rec2.t : EReal) then ray_t.max else (rec2.t : EReal)
      if t2a ≤ t1a then none
      else
        let t1b : EReal := if t1a < (0 : EReal) then 0 else t1a
        let ray_length := r.dir.norm
        let distance_inside_boundary := (t2a.toReal - t1b.toReal) * ray_length
        let hit_distance := cm.neg_inv_density * Real.log (max U epsF64)
        if distance_inside_boundary < hit_distance then none
        else
          let t := t1b.toReal + hit_distance / ray_length
          some { p := r.at t
                 geometry_normal := ⟨1, 0, 0⟩
                 shading_normal := Vec3.zeros
                 wo := Vec3.zeros
                 t := t
                 uv := (0, 0)
                 front_face := true
                 material := some cm.phase_function }

/-- Raising a real parameter to zero, written on the extended reals. -/
lemma ereal_raise_to_zero (t1 : ℝ) :
    (if (t1 : EReal) < (0 : EReal) then (0 : EReal) else (t1 : EReal)) =
      ((max t1 0 : ℝ) : EReal) := by
  split_ifs with h
  · have h' : t1 < 0 := by exact_mod_cast h
    rw [max_eq_right (le_of_lt h')]
    exact_mod_cast rfl
  · have h' : ¬ t1 < 0 := by exact_mod_cast h
    rw [max_eq_left (not_lt.mp h')]

/-- C7: for a constant medium of density rho whose boundary yields entry and
exit parameters t1 < t2 (each clipped to the caller's interval), given the
uniform draw U the sampled free-flight distance is
L = -ln(max(U, eps))/rho; the hit fails when L exceeds the chord length
|dir| * (t2 - max(t1,0)), and otherwise scatters at parameter
max(t1,0) + L/|dir| with geometric normal (1,0,0), front_face true, and the
medium's fixed phase-function material. -/
theorem constant_medium_hit_spec
    (boundary : HitFn) (density : ℝ) (phase : Material) (U : ℝ) (r : RayR)
    (ray_t : IntervalE) (rec1 rec2 : Interaction) (t1 t2 : ℝ)
    (h1 : boundary r IntervalE.universeE = some rec1)
    (h2 : boundary r ⟨((rec1.t + 0.0001 : ℝ) : EReal), ⊤⟩ = some rec2)
    (ht1 : (t1 : EReal) =
      (if (rec1.t : EReal) < ray_t.min then ray_t.min else (rec1.t : EReal)))
    (ht2 : (t2 : EReal) =
      (if ray_t.max < (rec2.t : EReal) then ray_t.max else (rec2.t : EReal)))
    (hlt : t1 < t2) :
    (r.dir.norm * (t2 - max t1 0) < -Real.log (max U epsF64) / density →
      (ConstantMediumR.new boundary density phase).hit U r ray_t = none) ∧
    (¬ (r.dir.norm * (t2 - max t1 0) < -Real.log (max U epsF64) / density) →
      (ConstantMediumR.new boundary density phase).hit U r ray_t =
        some { p := r.at (max t1 0 + (-Real.log (max U epsF64) / density) / r.dir.norm)
               geometry_normal := ⟨1, 0, 0⟩
               shading_normal := Vec3.zeros
               wo := Vec3.zeros
               t := max t1 0 + (-Real.log (max U epsF64) / density) / r.dir.norm
               uv := (0, 0)
               front_face := true
               material := some phase }) := by
  have hguard : ¬ ((t2 : EReal) ≤ (t1 : EReal)) := by
    exact_mod_cast not_le.mpr hlt
  have hL : (-1 / density) * Real.log (max U epsF64) =
      -Real.log (max U epsF64) / density := by
    ring
  simp only [ConstantMediumR.hit, ConstantMediumR.new, h1, h2, ← ht1, ← ht2,
    if_neg hguard, ereal_raise_to_zero, EReal.toReal_coe, hL]
  constructor
  · intro h
    rw [if_pos]
    rwa [mul_comm] at h
  · intro h
    rw [if_neg]
    rwa [mul_comm] at h

/-- A boundary with an entry hit at t = 2 on the universe interval and an
exit hit at t = 5 on any later probe, used to exercise the constant-medium
theorem. -/
def twoHitBoundary : HitFn := fun _ iv =>
  if iv.min = ⊥ then some (Interaction.make Vec3.zeros 2 (0, 0) none)
  else some (Interaction.make Vec3.zeros 5 (0, 0) none)

/-- Witness: the C7 theorem applied to a concrete medium of density 1, the
draw U = exp(-1), and a boundary crossed on [2, 5]. -/
theorem constant_medium_hit_spec_witness :
    ((⟨1, 0, 0⟩ : Vec3).norm * (5 - max 2 0) <
        -Real.log (max (Real.exp (-1)) epsF64) / 1 →
      (ConstantMediumR.new twoHitBoundary 1 matArb).hit (Real.exp (-1))
          ⟨Vec3.zeros, ⟨1, 0, 0⟩, 0⟩ ⟨((0.001 : ℝ) : EReal), ⊤⟩ = none) ∧
    (¬ ((⟨1, 0, 0⟩ : Vec3).norm * (5 - max 2 0) <
        -Real.log (max (Real.exp (-1)) epsF64) / 1) →
      (ConstantMediumR.new twoHitBoundary 1 matArb).hit (Real.exp (-1))
          ⟨Vec3.zeros, ⟨1, 0, 0⟩, 0⟩ ⟨((0.001 : ℝ) : EReal), ⊤⟩ =
        some { p := RayR.at ⟨Vec3.zeros, ⟨1, 0, 0⟩, 0⟩
                 (max 2 0 + (-Real.log (max (Real.exp (-1)) epsF64) / 1) /
                   (⟨1, 0, 0⟩ : Vec3).norm)
               geometry_normal := ⟨1, 0, 0⟩
               shading_normal := Vec3.zeros
               wo := Vec3.zeros
               t := max 2 0 + (-Real.log (max (Real.exp (-1)) epsF64) / 1) /
                 (⟨1, 0, 0⟩ : Vec3).norm
               uv := (0, 0)
               front_face := true
               material := some matArb }) := by
  have h1 : twoHitBoundary ⟨Vec3.zeros, ⟨1, 0, 0⟩, 0⟩ IntervalE.universeE =
      some (Interaction.make Vec3.zeros 2 (0, 0) none) := by
    simp [twoHitBoundary, IntervalE.universeE]
  have h2 : twoHitBoundary ⟨Vec3.zeros, ⟨1, 0, 0⟩, 0⟩
      ⟨(((2 : ℝ) + 0.0001 : ℝ) : EReal), ⊤⟩ =
      some (Interaction.make Vec3.zeros 5 (0, 0) none) := by
    simp [twoHitBoundary]
  have hclip1 : ¬ (((2 : ℝ) : EReal) < ((0.001 : ℝ) : EReal)) := by
    rw [EReal.coe_lt_coe_iff]
    norm_num
  exact constant_medium_hit_spec twoHitBoundary 1 matArb (Real.exp (-1))
    ⟨Vec3.zeros, ⟨1, 0, 0⟩, 0⟩ ⟨((0.001 : ℝ) : EReal), ⊤⟩
    (Interaction.make Vec3.zeros 2 (0, 0) none)
    (Interaction.make Vec3.zeros 5 (0, 0) none) 2 5 h1 h2
    (if_neg hclip1).symm (if_neg not_top_lt).symm (by norm_num)

/-- Light objects seen through the hittable light-sampling interface:
pdf_value(origin, direction) and random(origin). -/
structure LightsObj where
  pdfValue : Vec3 → Vec3 → ℝ
  sample : Vec3 → Vec3

/-- HittablePDF::value: zero for near-zero directions, else the light
objects' pdf_value from the stored origin. -/
def hittablePdfValue (lights : LightsObj) (origin : Vec3) (direction : Vec3) : ℝ :=
  if direction.nearZero then 0 else lights.pdfValue origin direction

/-- MixturePDF::value: the even mixture of the two component values. -/
def mixtureValue (p0 p1 : Vec3 → ℝ) (d : Vec3) : ℝ := 0.5 * p0 d + 0.5 * p1 d

/-- The density the integrator samples from: when lights are present, the
mixture of the light-sampling PDF anchored at the hit point with the
material's PDF; otherwise the material's PDF alone. -/
def liPdfValueFn (lights : Option LightsObj) (p : Vec3) (matPdf : PDFm) : Vec3 → ℝ :=
  match lights with
  | some L => mixtureValue (hittablePdfValue L p) matPdf.value
  | none => matPdf.value

/-- PathTracer::li.  The world is its hit function; the directions that
p.generate() would draw at the successive bounces are supplied by the
stream dirs.  None models the panic on a missing pdf_ptr in the
PDF-sampling branch. -/
def li (world : HitFn) (lights : Option LightsObj) (background : Vec3)
    (dirs : ℕ → Vec3) : ℕ → RayR → Option Vec3
  | 0, _ => some Vec3.zeros
  | depth + 1, ray =>
    match world ray ⟨((0.001 : ℝ) : EReal), ⊤⟩ with
    | none => some background
    | some isect =>
      match isect.material with
      | none => some ⟨1, 0, 1⟩
      | some material =>
        let emission := material.emitted ray isect.toSurfData isect.uv.1 isect.uv.2 isect.p
        match material.scatter ray isect.toSurfData with
        | none => some emission
        | some srec =>
          if srec.skip_pdf then
            (li world lights background (fun n => dirs (n + 1)) depth
                srec.skip_pdf_ray).map
              (fun c => emission + srec.attenuation.compMul c)
          else
            match srec.pdf_ptr with
            | none => none
            | some matPdf =>
              let scattered_ray : RayR := ⟨isect.p, dirs 0, ray.time⟩
              let pdf_val := liPdfValueFn lights isect.p matPdf (dirs 0)
              if pdf_val < 1e-5 then some emission
              else
                let scattering_pdf :=
                  material.scatteringPdf ray isect.toSurfData scattered_ray
                (li world lights background (fun n => dirs (n + 1)) depth
                    scattered_ray).map
                  (fun c => emission +
                    ((scattering_pdf • srec.attenuation.compMul c).sdiv pdf_val))

/-- C1: the radiance function Li returns black at depth 0; the background
color when the world reports no hit on (0.001, +inf); the material's
emission alone when scatter fails (absorption); and, in the PDF-sampling
branch, the emission alone whenever the sampled mixture/material PDF value
at the drawn direction falls below 1e-5. -/
theorem path_tracer_li_cases :
    (∀ (world : HitFn) (lights : Option LightsObj) (background : Vec3)
        (dirs : ℕ → Vec3) (ray : RayR),
      li world lights background dirs 0 ray = some Vec3.zeros) ∧
    (∀ (world : HitFn) (lights : Option LightsObj) (background : Vec3)
        (dirs : ℕ → Vec3) (depth : ℕ) (ray : RayR),
      world ray ⟨((0.001 : ℝ) : EReal), ⊤⟩ = none →
      li world lights background dirs (depth + 1) ray = some background) ∧
    (∀ (world : HitFn) (lights : Option LightsObj) (background : Vec3)
        (dirs : ℕ → Vec3) (depth : ℕ) (ray : RayR) (isect : Interaction)
        (material : Material),
      world ray ⟨((0.001 : ℝ) : EReal), ⊤⟩ = some isect →
      isect.material = some material →
      material.scatter ray isect.toSurfData = none →
      li world lights background dirs (depth + 1) ray =
        some (material.emitted ray isect.toSurfData isect.uv.1 isect.uv.2 isect.p)) ∧
    (∀ (world : HitFn) (lights : Option LightsObj) (background : Vec3)
        (dirs : ℕ → Vec3) (depth : ℕ) (ray : RayR) (isect : Interaction)
        (material : Material) (srec : ScatterRec) (matPdf : PDFm),
      world ray ⟨((0.001 : ℝ) : EReal), ⊤⟩ = some isect →
      isect.material = some material →
      material.scatter ray isect.toSurfData = some srec →
      srec.skip_pdf = false →
      srec.pdf_ptr = some matPdf →
      liPdfValueFn lights isect.p matPdf (dirs 0) < 1e-5 →
      li world lights background dirs (depth + 1) ray =
        some (material.emitted ray isect.toSurfData isect.uv.1 isect.uv.2 isect.p)) := by
  refine ⟨?_, ?_, ?_, ?_⟩
  · intro world lights background dirs ray
    rfl
  · intro world lights background dirs depth ray hw
    simp only [li, hw]
  · intro world lights background dirs depth ray isect material hw hm hs
    simp only [li, hw, hm, hs]
  · intro world lights background dirs depth ray isect material srec matPdf hw hm hs hskip hp hsmall
    simp only [li, hw, hm, hs, hskip, Bool.false_eq_true, if_false, hp]
    rw [if_pos hsmall]

/-- A world that never reports a hit. -/
def worldMiss : HitFn := fun _ _ => none

/-- An interaction carrying the absorbing material. -/
def isectAbsorb : Interaction := Interaction.make Vec3.zeros 0 (0, 0) (some matArb)

/-- A world whose every hit carries the absorbing material. -/
def worldAbsorb : HitFn := fun _ _ => some isectAbsorb

/-- A PDF handle whose value is identically zero. -/
def pdfZero : PDFm := ⟨fun _ => 0⟩

/-- A scatter record entering the PDF-sampling branch with the zero PDF. -/
def srecSmall : ScatterRec := ⟨Vec3.zeros, some pdfZero, false, ⟨Vec3.zeros, Vec3.zeros, 0⟩⟩

/-- A material that always scatters into the zero-valued PDF. -/
def matSmallPdf : Material :=
  ⟨fun _ _ => some srecSmall, fun _ _ _ _ _ => Vec3.zeros, fun _ _ _ => 0⟩

/-- An interaction carrying that material. -/
def isectSmall : Interaction := Interaction.make Vec3.zeros 0 (0, 0) (some matSmallPdf)

/-- A world whose every hit carries that material. -/
def worldSmall : HitFn := fun _ _ => some isectSmall

/-- Witness: the four C1 cases at concrete worlds, materials and rays. -/
theorem path_tracer_li_cases_witness :
    li worldMiss none ⟨0.5, 0.7, 1⟩ (fun _ => Vec3.zeros) 0 ⟨Vec3.zeros, ⟨0, 0, 1⟩, 0⟩ =
      some Vec3.zeros ∧
    li worldMiss none ⟨0.5, 0.7, 1⟩ (fun _ => Vec3.zeros) 3 ⟨Vec3.zeros, ⟨0, 0, 1⟩, 0⟩ =
      some ⟨0.5, 0.7, 1⟩ ∧
    li worldAbsorb none ⟨0.5, 0.7, 1⟩ (fun _ => Vec3.zeros) 3 ⟨Vec3.zeros, ⟨0, 0, 1⟩, 0⟩ =
      some (matArb.emitted ⟨Vec3.zeros, ⟨0, 0, 1⟩, 0⟩ isectAbsorb.toSurfData
        isectAbsorb.uv.1 isectAbsorb.uv.2 isectAbsorb.p) ∧
    li worldSmall none ⟨0.5, 0.7, 1⟩ (fun _ => Vec3.zeros) 3 ⟨Vec3.zeros, ⟨0, 0, 1⟩, 0⟩ =
      some (matSmallPdf.emitted ⟨Vec3.zeros, ⟨0, 0, 1⟩, 0⟩ isectSmall.toSurfData
        isectSmall.uv.1 isectSmall.uv.2 isectSmall.p) :=
  ⟨path_tracer_li_cases.1 worldMiss none ⟨0.5, 0.7, 1⟩ (fun _ => Vec3.zeros)
      ⟨Vec3.zeros, ⟨0, 0, 1⟩, 0⟩,
    path_tracer_li_cases.2.1 worldMiss none ⟨0.5, 0.7, 1⟩ (fun _ => Vec3.zeros) 2
      ⟨Vec3.zeros, ⟨0, 0, 1⟩, 0⟩ rfl,
    path_tracer_li_cases.2.2.1 worldAbsorb none ⟨0.5, 0.7, 1⟩ (fun _ => Vec3.zeros) 2
      ⟨Vec3.zeros, ⟨0, 0, 1⟩, 0⟩ isectAbsorb matArb rfl rfl rfl,
    path_tracer_li_cases.2.2.2 worldSmall none ⟨0.5, 0.7, 1⟩ (fun _ => Vec3.zeros) 2
      ⟨Vec3.zeros, ⟨0, 0, 1⟩, 0⟩ isectSmall matSmallPdf srecSmall pdfZero rfl rfl rfl rfl rfl
      (by norm_num [liPdfValueFn, pdfZero])⟩

/-- A radiance sample with each channel a model double, so that NaN and
infinite channels are representable. -/
structure ColorF where
  x : Fq
  y : Fq
  z : Fq

/-- f64::is_finite: true exactly on finite values (not NaN, not infinite). -/
def Fq.isFinite : Fq → Bool
  | Fq.fin _ => true
  | _ => false

/-- The rational value of a finite channel (junk 0 on the others). -/
def Fq.toQ : Fq → ℚ
  | Fq.fin q => q
  | _ => 0

/-- The per-sample filter of PathTracer::calculate_pixel_color: all three
channels finite. -/
def ColorF.isFinite3 (c : ColorF) : Bool :=
  c.x.isFinite && c.y.isFinite && c.z.isFinite

/-- Adding a sample to the running sum (exact on finite samples). -/
def addSample (acc : Vec3q) (s : ColorF) : Vec3q :=
  ⟨acc.x + s.x.toQ, acc.y + s.y.toQ, acc.z + s.z.toQ⟩

/-- PathTracer::calculate_pixel_color on the list of per-sample radiance
values: fold over the samples, adding a sample exactly when all of its
channels are finite. -/
def calculatePixelColor (samples : List ColorF) : Vec3q :=
  samples.foldl (fun acc s => if s.isFinite3 then addSample acc s else acc) ⟨0, 0, 0⟩

/-- linear_to_gamma: square root on positive values, zero otherwise. -/
def linearToGamma (x : ℝ) : ℝ := if 0 < x then Real.sqrt x else 0

/-- One channel of color_to_rgb: scale by 1/spp happens at the caller; here
gamma-correct, clamp to [0, 0.999], scale by 256 and truncate to a byte. -/
def gammaClampByte (x : ℝ) : ℕ :=
  (⌊(min (max (linearToGamma x) 0) 0.999) * 256⌋).toNat

/-- color_to_rgb: divide the accumulated color by the sample count, then
gamma-correct, clamp and quantize each channel. -/
def colorToRgb (c : Vec3) (spp : ℕ) : ℕ × ℕ × ℕ :=
  let scale : ℝ := 1 / (spp : ℝ)
  ((⌊(min (max (linearToGamma (c.x * scale)) 0) 0.999) * 256⌋).toNat,
   (⌊(min (max (linearToGamma (c.y * scale)) 0) 0.999) * 256⌋).toNat,
   (⌊(min (max (linearToGamma (c.z * scale)) 0) 0.999) * 256⌋).toNat)

/-- The accumulation visits exactly the finite samples, whatever the
accumulator. -/
lemma calculatePixelColor_foldl (samples : List ColorF) :
    ∀ acc : Vec3q,
      samples.foldl (fun acc s => if s.isFinite3 then addSample acc s else acc) acc =
        (samples.filter (fun s => s.isFinite3)).foldl addSample acc := by
  induction samples with
  | nil => intro acc; rfl
  | cons s rest ih =>
    intro acc
    by_cases h : s.isFinite3
    · simp only [List.foldl_cons, List.filter_cons, h, if_pos, ih]
    · simp only [List.foldl_cons, List.filter_cons, h, if_neg, Bool.false_eq_true, ih,
        if_false]

/-- C9: a radiance sample contributes to the running pixel sum exactly when
all three of its channels are finite (a channel is non-finite exactly when
it is NaN or an infinity, and such samples are discarded while accumulation
continues); the accumulated sum is then divided by samples_per_pixel, each
channel is gamma-2 corrected by a square root (non-positive values map to
0), clamped between 0 and 0.999, and scaled to an 8-bit value, which is
always at most 255. -/
theorem pixel_accumulation_and_rgb_spec :
    (∀ samples : List ColorF,
      calculatePixelColor samples =
        (samples.filter (fun s => s.isFinite3)).foldl addSample ⟨0, 0, 0⟩) ∧
    (∀ c : Fq, c.isFinite = false ↔ (c = Fq.nan ∨ c = Fq.ninf ∨ c = Fq.pinf)) ∧
    (∀ (c : Vec3) (spp : ℕ),
      colorToRgb c spp =
        (gammaClampByte (c.x / (spp : ℝ)), gammaClampByte (c.y / (spp : ℝ)),
          gammaClampByte (c.z / (spp : ℝ)))) ∧
    (∀ x : ℝ, gammaClampByte x ≤ 255) := by
  refine ⟨?_, ?_, ?_, ?_⟩
  · intro samples
    exact calculatePixelColor_foldl samples ⟨0, 0, 0⟩
  · intro c
    cases c <;> simp [Fq.isFinite]
  · intro c spp
    simp only [colorToRgb, gammaClampByte]
    rw [mul_one_div, mul_one_div, mul_one_div]
  · intro x
    have hmin : min (max (linearToGamma x) 0) 0.999 ≤ 0.999 :=
      min_le_right _ _
    have hy : (min (max (linearToGamma x) 0) 0.999) * 256 < 256 := by
      nlinarith
    have hfl : ⌊(min (max (linearToGamma x) 0) 0.999) * 256⌋ < 256 := by
      exact Int.floor_lt.mpr (by exact_mod_cast hy)
    unfold gammaClampByte
    rw [Int.toNat_le]
    omega

end

end RT
